import Mathlib

set_option maxRecDepth 100000

/-
Verification of the service-layer runtime (src/src/packages/runtime/services/ServiceLayer.ts).

The embedding translates ServiceLayer.ts directly.  The collaborating classes that are not
part of src/ (ServiceRepr with its lifecycle state machine, the ServiceLookup index built by
verifyDependencies, InterfaceSpec rendering) are modelled from the specification (spec.md,
sections 3, 4.1-4.3); each such definition is marked "Modelled from the spec".

The TypeScript code mutates an object graph; the embedding threads an explicit state value
(`St`) through every operation.  Recursion depth is bounded by an explicit fuel parameter;
running out of fuel is a distinct outcome (`fuelOut` / `none`) that never corresponds to a
program behaviour, and fuel-sufficiency is proved where a claim needs termination.
Thrown exceptions are modelled as error results that carry the state at the moment of the
throw, since the TypeScript mutations performed before a throw persist.
-/

namespace SL

/-- Lifecycle state of a single service. Modelled from the spec: ServiceRepr.state has exactly
the four states not-constructed, constructing, constructed, destroyed (spec section 3). -/
inductive SState
  | notConstructed
  | constructing
  | constructed
  | destroyed
deriving DecidableEq

/-- Lifecycle state of the whole layer (ServiceLayer.ts line 26). -/
inductive LState
  | notStarted
  | started
  | destroyed
deriving DecidableEq

/-- An interface specification: interface name plus optional qualifier (spec section 3;
InterfaceSpec.ts is not part of src/). -/
structure InterfaceSpec where
  interfaceName : String
  qualifier : Option String
deriving DecidableEq

/-- A declared dependency of a service: an interface specification together with the reference
name under which the resolved instance is passed to the constructor (spec section 3). -/
structure Dep where
  referenceName : String
  interfaceName : String
  qualifier : Option String
deriving DecidableEq

/-- The interface specification of a declared dependency. -/
def Dep.toSpec (d : Dep) : InterfaceSpec := ⟨d.interfaceName, d.qualifier⟩

/-- Result of the service lookup index. Modelled from the spec: the index resolves a
specification to exactly one service, or reports not-found or ambiguous (spec section 4.1;
ServiceLookup.ts is not part of src/).  Services are identified by their position in the
flattened `allServices` list. -/
inductive ServiceLookupResult
  | found (idx : Nat)
  | notFound
  | ambiguous
deriving DecidableEq

/-- DynamicLookupResult (ServiceLayer.ts lines 9-13): a lookup result or the distinct
undeclared marker. -/
inductive DynamicLookupResult
  | found (idx : Nat)
  | notFound
  | ambiguous
  | undeclared
deriving DecidableEq

/-- Injection of lookup results into dynamic lookup results: getService returns the lookup
result verbatim (ServiceLayer.ts line 83). -/
def liftLookup : ServiceLookupResult → DynamicLookupResult
  | .found j => .found j
  | .notFound => .notFound
  | .ambiguous => .ambiguous

/-- Trace events recorded by the embedding: a service constructor invocation (with a snapshot
of the lifecycle states of the resolved dependencies at that very moment), an entry into
destroyService, and an actual destructor run. -/
inductive Event
  | ctorCall (i : Nat) (depStates : List SState)
  | destroyAttempt (i : Nat)
  | destructorRun (i : Nat)
deriving DecidableEq

/-- Mutable per-service state. Modelled from the spec: ServiceRepr (not part of src/) holds the
lifecycle state, the reference count and the current instance (spec section 3).  `references`
records the instances record passed to the constructor, `destructorRuns` counts destructor
invocations.  Instances are identified by tokens handed out from a global counter, so two
equal tokens denote the identical instance. -/
structure SvcState where
  state : SState
  refCount : Int
  inst : Option Nat
  references : List (String × Nat)
  destructorRuns : Nat
deriving DecidableEq

/-- Initial per-service state: not yet constructed, no references held. -/
def initSvc : SvcState := ⟨SState.notConstructed, 0, none, [], 0⟩

/-- Global mutable state of one layer run: every service state (by index), the layer state,
the instance-token counter and the event trace. -/
structure St where
  svc : Nat → SvcState
  layerState : LState
  nextInstance : Nat
  log : List Event

/-- State of a freshly built layer: all services not-constructed, layer not-started. -/
def initSt : St := ⟨fun _ => initSvc, LState.notStarted, 0, []⟩

/-- Replace the state of service `i`. -/
def St.setSvc (σ : St) (i : Nat) (s : SvcState) : St :=
  { σ with svc := fun j => if j = i then s else σ.svc j }

/-- Append one trace event. -/
def St.addLog (σ : St) (e : Event) : St := { σ with log := σ.log ++ [e] }

/-- Error identifiers; every error thrown in ServiceLayer.ts uses ErrorId.INTERNAL. -/
inductive ErrorId
  | INTERNAL
deriving DecidableEq

/-- A runtime error as thrown via Error(ErrorId.INTERNAL, message) in ServiceLayer.ts. -/
structure RTError where
  id : ErrorId
  message : String
deriving DecidableEq

/-- Error of ServiceLayer.start when the layer state is not not-started (line 55). -/
def alreadyStartedError : RTError := ⟨ErrorId.INTERNAL, "Service layer was already started."⟩

/-- Error of ServiceLayer.getService when the layer state is not started (line 76). -/
def notStartedError : RTError := ⟨ErrorId.INTERNAL, "Service layer is not started."⟩

/-- Error of createService on a service in state constructing (line 97). -/
def cycleError : RTError := ⟨ErrorId.INTERNAL, "Cycle during service construction."⟩

/-- Error of createService on a service in an unexpected state (line 100). -/
def invalidStateError : RTError := ⟨ErrorId.INTERNAL, "Invalid service state."⟩

/-- Modelled from the spec: getInstanceOrThrow (ServiceRepr, not part of src/) throws when a
constructed service has no stored instance; the instance is present iff the state is
constructed (spec section 3). -/
def instMissingError : RTError := ⟨ErrorId.INTERNAL, "Expected service instance to be present."⟩

/-- The `type` tag of a lookup result, used in the mustGet error message. -/
def lookupTypeName : ServiceLookupResult → String
  | .found _ => "found"
  | .notFound => "not-found"
  | .ambiguous => "ambiguous"

/-- Modelled from the spec: renderInterfaceSpec (InterfaceSpec.ts, not part of src/) renders an
interface name with its optional qualifier; the exact format is unspecified and no claim
depends on it. -/
def renderInterfaceSpec (spec : InterfaceSpec) : String :=
  match spec.qualifier with
  | none => spec.interfaceName
  | some q => spec.interfaceName ++ " (qualifier: " ++ q ++ ")"

/-- Error of ServiceLayer.mustGet when the lookup does not yield found (lines 163-169).
The source interpolates the result type in quotes; the quotes are omitted here. -/
def mustGetError (d : Dep) (r : ServiceLookupResult) : RTError :=
  ⟨ErrorId.INTERNAL,
    "Failed to find service implementing interface " ++ renderInterfaceSpec d.toSpec ++
      ": result type " ++ lookupTypeName r ++ "."⟩

/-- DependencyDeclarations (ServiceLayer.ts lines 15-18): per interface name, whether an
unqualified reference was declared and which qualifiers were declared.  The Set of the source
is modelled as a list queried by membership. -/
structure DependencyDeclarations where
  unqualified : Bool
  qualifiers : List String
deriving DecidableEq

/-- A consumer reference declared by a package (pkg.uiReferences in ServiceLayer.ts). -/
structure UIReference where
  interfaceName : String
  qualifier : Option String
deriving DecidableEq

/-- A service as supplied by a package descriptor: its declared dependencies (the only
attribute the claims need). -/
structure ServiceDecl where
  dependencies : List Dep
deriving DecidableEq

/-- PackageRepr (not part of src/): a named unit bundling services and consumer references
(spec section 3). -/
structure PackageRepr where
  name : String
  services : List ServiceDecl
  uiReferences : List UIReference
deriving DecidableEq

/-- One step of the index builder: register one uiReference, creating the interface entry on
demand and then either setting the unqualified flag or adding the qualifier
(ServiceLayer.ts lines 183-198). -/
def addUIReference (entry : String → Option DependencyDeclarations) (r : UIReference) :
    String → Option DependencyDeclarations :=
  Function.update entry r.interfaceName
    (some
      (match r.qualifier with
       | none =>
         { (entry r.interfaceName).getD ⟨false, []⟩ with unqualified := true }
       | some q =>
         { (entry r.interfaceName).getD ⟨false, []⟩ with
             qualifiers :=
               if q ∈ ((entry r.interfaceName).getD (⟨false, []⟩ : DependencyDeclarations)).qualifiers then
                 ((entry r.interfaceName).getD (⟨false, []⟩ : DependencyDeclarations)).qualifiers
               else
                 ((entry r.interfaceName).getD (⟨false, []⟩ : DependencyDeclarations)).qualifiers ++ [q] }))

/-- The per-package interface map of the index builder (inner loop of buildDependencyIndex,
ServiceLayer.ts lines 182-198). -/
def buildPackageEntry (refs : List UIReference) : String → Option DependencyDeclarations :=
  refs.foldl addUIReference (fun _ => none)

/-- buildDependencyIndex (ServiceLayer.ts lines 175-202): package name to interface name to
declarations.  Map.set is modelled by functional update, so a later package with the same
name overwrites an earlier one, as in the source. -/
def buildDependencyIndex (pkgs : List PackageRepr) :
    String → Option (String → Option DependencyDeclarations) :=
  pkgs.foldl
    (fun index pkg => Function.update index pkg.name (some (buildPackageEntry pkg.uiReferences)))
    (fun _ => none)

/-- Static configuration of a ServiceLayer after its constructor ran: the number of services
in the flattened allServices list (services are identified by position), their declared
dependencies, the lookup index (modelled from the spec: it is built by verifyDependencies,
which is not part of src/), and the declared-dependency index. -/
structure ServiceLayer where
  n : Nat
  deps : Nat → List Dep
  lookup : InterfaceSpec → ServiceLookupResult
  declIndex : String → Option (String → Option DependencyDeclarations)

/-- The ServiceLayer constructor (ServiceLayer.ts lines 28-44): flatten the packages into
allServices and build the dependency index.  The lookup index returned by verifyDependencies
is supplied as a parameter since verifyDependencies is not part of src/. -/
def ServiceLayer.ofPackages (pkgs : List PackageRepr)
    (lookup : InterfaceSpec → ServiceLookupResult) : ServiceLayer :=
  { n := ((pkgs.map PackageRepr.services).flatten).length
    deps := fun i =>
      match ((pkgs.map PackageRepr.services).flatten)[i]? with
      | some s => s.dependencies
      | none => []
    lookup := lookup
    declIndex := buildDependencyIndex pkgs }

/-- Result of createService: the returned instance token and the updated state, an error
carrying the state at the throw, or fuel exhaustion (a model artifact, never a program
behaviour). -/
inductive CRes
  | ok (tok : Nat) (σ : St)
  | err (e : RTError) (σ : St)
  | fuelOut
deriving Nonempty

/-- Result of the dependency-construction loop inside createService. -/
inductive DRes
  | okD (refs : List (String × Nat)) (σ : St)
  | errD (e : RTError) (σ : St)
  | fuelOutD
deriving Nonempty

/-- Result of start: the updated state, an error carrying the state at the throw, or fuel
exhaustion. -/
inductive SRes
  | ok (σ : St)
  | err (e : RTError) (σ : St)
  | fuelOut
deriving Nonempty

/-- The service.create call at the end of createService (ServiceLayer.ts line 117).
Modelled from the spec: ServiceRepr.create stores the instance, sets the state to constructed
and the reference count to 1, and returns the instance (spec section 4.2 step 4).  The
embedding hands out a fresh instance token, records the references passed to the constructor,
and logs the constructor invocation together with the lifecycle states the resolved
dependencies have at this very moment. -/
def depSnapshot (L : ServiceLayer) (i : Nat) (σ : St) : List SState :=
  (L.deps i).filterMap (fun d =>
    match L.lookup d.toSpec with
    | .found j => some ((σ.svc j).state)
    | _ => none)

def finishSt (L : ServiceLayer) (i : Nat) (refs : List (String × Nat)) (σ : St) : St :=
  { svc := fun j =>
      if j = i then
        { state := SState.constructed, refCount := 1, inst := some σ.nextInstance,
          references := refs, destructorRuns := (σ.svc i).destructorRuns }
      else σ.svc j
    layerState := σ.layerState
    nextInstance := σ.nextInstance + 1
    log := σ.log ++ [Event.ctorCall i (depSnapshot L i σ)] }

def finishCreate (L : ServiceLayer) (i : Nat) (refs : List (String × Nat)) (σ : St) : CRes :=
  CRes.ok σ.nextInstance (finishSt L i refs σ)

/-- The dependency loop of createService (ServiceLayer.ts lines 110-114): resolve each
declared dependency through the lookup index (mustGet, lines 161-172: anything but found
throws), construct it recursively via `step`, and collect the instance under the declared
reference name. -/
def createDeps (L : ServiceLayer) (step : Nat → St → CRes) :
    List Dep → St → List (String × Nat) → DRes
  | [], σ, acc => DRes.okD acc σ
  | d :: ds, σ, acc =>
    match L.lookup d.toSpec with
    | .found j =>
      match step j σ with
      | .ok tok σ' => createDeps L step ds σ' (acc ++ [(d.referenceName, tok)])
      | .err e σ' => DRes.errD e σ'
      | .fuelOut => DRes.fuelOutD
    | r => DRes.errD (mustGetError d r) σ

/-- createService (ServiceLayer.ts lines 90-118).  A constructed service returns its existing
instance and gains a reference (lines 91-95; addRef and getInstanceOrThrow are modelled from
the spec).  A constructing service signals a dependency cycle (lines 96-98).  Any other state
than not-constructed is invalid (lines 99-101).  Otherwise the state is set to constructing
(beforeCreate, line 107), the dependencies are constructed recursively (lines 110-114), and
the service itself is created (line 117). -/
def ServiceLayer.createService (L : ServiceLayer) : Nat → Nat → St → CRes
  | 0, _, _ => CRes.fuelOut
  | fuel + 1, i, σ =>
    if (σ.svc i).state = SState.constructed then
      match (σ.svc i).inst with
      | some tok => CRes.ok tok (σ.setSvc i { σ.svc i with refCount := (σ.svc i).refCount + 1 })
      | none => CRes.err instMissingError σ
    else if (σ.svc i).state = SState.constructing then
      CRes.err cycleError σ
    else if (σ.svc i).state ≠ SState.notConstructed then
      CRes.err invalidStateError σ
    else
      match createDeps L (L.createService fuel) (L.deps i)
          (σ.setSvc i { σ.svc i with state := SState.constructing }) [] with
      | .okD refs σ2 => finishCreate L i refs σ2
      | .errD e σ2 => CRes.err e σ2
      | .fuelOutD => CRes.fuelOut

/-- The loop of start (ServiceLayer.ts lines 58-60): createService on every service of
allServices in order. -/
def startAll (L : ServiceLayer) (fuel : Nat) : List Nat → St → SRes
  | [], σ => SRes.ok σ
  | i :: is, σ =>
    match L.createService fuel i σ with
    | .ok _ σ' => startAll L fuel is σ'
    | .err e σ' => SRes.err e σ'
    | .fuelOut => SRes.fuelOut

/-- start (ServiceLayer.ts lines 53-62): reject any state other than not-started, construct
every service, then transition the layer to started. -/
def ServiceLayer.start (L : ServiceLayer) (fuel : Nat) (σ : St) : SRes :=
  if σ.layerState ≠ LState.notStarted then SRes.err alreadyStartedError σ
  else
    match startAll L fuel (List.range L.n) σ with
    | .ok σ' => SRes.ok { σ' with layerState := LState.started }
    | r => r

/-- Modelled from the spec: ServiceRepr.destroy (not part of src/) invokes the destructor,
clears the instance and sets the state to destroyed (spec section 4.3 step 2). -/
def runDestructor (s : SvcState) : SvcState :=
  { state := SState.destroyed, refCount := s.refCount, inst := none,
    references := s.references, destructorRuns := s.destructorRuns + 1 }

/-- The reference-release step of destroyService (ServiceLayer.ts lines 131-133): removeRef
decrements the count; if the new count is at most zero the destructor runs. -/
def destroyStep (i : Nat) (σ : St) : St :=
  if (σ.svc i).refCount - 1 ≤ 0 then
    (σ.setSvc i (runDestructor { σ.svc i with refCount := (σ.svc i).refCount - 1 })).addLog
      (Event.destructorRun i)
  else
    σ.setSvc i { σ.svc i with refCount := (σ.svc i).refCount - 1 }

/-- The dependency loop of destroyService (ServiceLayer.ts lines 135-140): look every declared
dependency up; only a found result is destroyed recursively, any other result is skipped. -/
def destroyDeps (L : ServiceLayer) (step : Nat → St → Option St) :
    List Dep → St → Option St
  | [], σ => some σ
  | d :: ds, σ =>
    match L.lookup d.toSpec with
    | .found j =>
      match step j σ with
      | some σ' => destroyDeps L step ds σ'
      | none => none
    | _ => destroyDeps L step ds σ

/-- destroyService (ServiceLayer.ts lines 124-141): a destroyed service is a no-op; otherwise
release one reference (destroying the service when the count reaches zero or below) and then
recurse into the declared dependencies.  Entering destroyService is logged as a destruction
attempt. -/
def ServiceLayer.destroyService (L : ServiceLayer) : Nat → Nat → St → Option St
  | 0, _, _ => none
  | fuel + 1, i, σ =>
    if (σ.svc i).state = SState.destroyed then some (σ.addLog (Event.destroyAttempt i))
    else
      destroyDeps L (L.destroyService fuel) (L.deps i)
        (destroyStep i (σ.addLog (Event.destroyAttempt i)))

/-- The loop of destroy (ServiceLayer.ts lines 47-49): destroyService on every service of
allServices in order. -/
def destroyAll (L : ServiceLayer) (fuel : Nat) : List Nat → St → Option St
  | [], σ => some σ
  | i :: is, σ =>
    match L.destroyService fuel i σ with
    | some σ' => destroyAll L fuel is σ'
    | none => none

/-- destroy (ServiceLayer.ts lines 46-51): tear down every service, then transition the layer
to destroyed.  No branch produces an error. -/
def ServiceLayer.destroy (L : ServiceLayer) (fuel : Nat) (σ : St) : Option St :=
  match destroyAll L fuel (List.range L.n) σ with
  | some σ' => some { σ' with layerState := LState.destroyed }
  | none => none

/-- The inner declaration check of isDeclaredDependency (ServiceLayer.ts lines 148-155): the
interface entry must exist, and the spec qualifier selects the unqualified flag or exact
membership in the declared qualifiers. -/
def matchEntry (entry : String → Option DependencyDeclarations) (spec : InterfaceSpec) : Bool :=
  match entry spec.interfaceName with
  | none => false
  | some e =>
    match spec.qualifier with
    | none => e.unqualified
    | some q => e.qualifiers.contains q

/-- isDeclaredDependency (ServiceLayer.ts lines 143-156). -/
def ServiceLayer.isDeclaredDependency (L : ServiceLayer) (packageName : String)
    (spec : InterfaceSpec) : Bool :=
  match L.declIndex packageName with
  | none => false
  | some entry => matchEntry entry spec

/-- getService (ServiceLayer.ts lines 74-84): reject any layer state other than started,
return undeclared when the requesting package did not declare the dependency, otherwise
return the lookup result verbatim. -/
def ServiceLayer.getService (L : ServiceLayer) (σ : St) (packageName : String)
    (spec : InterfaceSpec) : Except RTError DynamicLookupResult :=
  if σ.layerState ≠ LState.started then Except.error notStartedError
  else if L.isDeclaredDependency packageName spec = false then
    Except.ok DynamicLookupResult.undeclared
  else Except.ok (liftLookup (L.lookup spec))

/-- The state carried by a start result (the initial state for the fuel-out artifact). -/
def resState : SRes → St
  | .ok σ => σ
  | .err _ σ => σ
  | .fuelOut => initSt

/-- Whether a start result is a success. -/
def isOkS : SRes → Bool
  | .ok _ => true
  | _ => false

/-- Index of the first occurrence of an event in a trace. -/
def idxOfEvent (e : Event) : List Event → Nat
  | [] => 0
  | x :: xs => if x = e then 0 else idxOfEvent e xs + 1

/-- Whether a single trace event is a constructor invocation whose recorded dependency states
are all constructed. -/
def ctorEventOk : Event → Bool
  | .ctorCall _ ss => ss.all (fun s => decide (s = SState.constructed))
  | _ => true

/-- Whether every constructor invocation in a trace happened with all resolved dependencies
already constructed. -/
def logOkB (t : List Event) : Bool := t.all ctorEventOk

/-- The trace produced by running start on a freshly built layer. -/
def startLog (L : ServiceLayer) (fuel : Nat) : List Event :=
  match L.start fuel initSt with
  | .ok σ => σ.log
  | .err _ σ => σ.log
  | .fuelOut => []

/-- Propositional form of logOkB. -/
def LogOk (t : List Event) : Prop :=
  ∀ e ∈ t, ∀ i ss, e = Event.ctorCall i ss → ∀ s ∈ ss, s = SState.constructed

/-- State-evolution facts common to every terminating createService call (successful or
thrown): constructed services stay constructed with the same instance and a reference count
that never drops, the set of destroyed services is unchanged, no service falls back to
not-constructed, a newly constructed service holds an instance and at least one reference,
the layer state is untouched, and the trace only grows, by constructor invocations whose
recorded dependency states are all constructed. -/
structure Common (σ σ' : St) : Prop where
  con : ∀ j, (σ.svc j).state = SState.constructed →
    (σ'.svc j).state = SState.constructed ∧ (σ'.svc j).inst = (σ.svc j).inst ∧
      (σ.svc j).refCount ≤ (σ'.svc j).refCount
  des : ∀ j, (σ'.svc j).state = SState.destroyed ↔ (σ.svc j).state = SState.destroyed
  ncBack : ∀ j, (σ'.svc j).state = SState.notConstructed →
    (σ.svc j).state = SState.notConstructed
  newCon : ∀ j, (σ.svc j).state ≠ SState.constructed →
    (σ'.svc j).state = SState.constructed →
      (σ'.svc j).inst.isSome = true ∧ 1 ≤ (σ'.svc j).refCount
  layer : σ'.layerState = σ.layerState
  logGrow : ∃ t, σ'.log = σ.log ++ t ∧ LogOk t

/-- No service is constructing afterwards that was not constructing before. -/
def NoNewCon (σ σ' : St) : Prop :=
  ∀ j, (σ'.svc j).state = SState.constructing → (σ.svc j).state = SState.constructing

/-- Every service constructing before is still constructing afterwards. -/
def ConFwd (σ σ' : St) : Prop :=
  ∀ j, (σ.svc j).state = SState.constructing → (σ'.svc j).state = SState.constructing

/-- Invariant of construction: nothing is destroyed yet, and every constructed service holds
an instance and at least one reference. -/
def LayerInv (σ : St) : Prop :=
  (∀ j, (σ.svc j).state ≠ SState.destroyed) ∧
    (∀ j, (σ.svc j).state = SState.constructed →
      (σ.svc j).inst.isSome = true ∧ 1 ≤ (σ.svc j).refCount)

/-- Lookup results satisfying a predicate when found, and failing otherwise. -/
def FoundSat (r : ServiceLookupResult) (P : Nat → Prop) : Prop :=
  match r with
  | .found j => P j
  | _ => False

instance (r : ServiceLookupResult) (P : Nat → Prop) [DecidablePred P] :
    Decidable (FoundSat r P) := by
  cases r with
  | found j => exact (inferInstance : Decidable (P j))
  | notFound => exact isFalse (fun h => h)
  | ambiguous => exact isFalse (fun h => h)

/-- Every declared dependency of every service resolves to a service of the layer. -/
def ResolvableAll (L : ServiceLayer) : Prop :=
  ∀ i, i < L.n → ∀ d ∈ L.deps i, FoundSat (L.lookup d.toSpec) (fun j => j < L.n)

instance (L : ServiceLayer) : Decidable (ResolvableAll L) := by
  unfold ResolvableAll; infer_instance

/-- Acyclicity certificate: every declared dependency resolves to a service of strictly
smaller rank.  Every finite acyclic dependency graph admits such a rank function with values
below the number of services (longest-path depth). -/
def RankedAcyclic (L : ServiceLayer) (rank : Nat → Nat) : Prop :=
  ∀ i, i < L.n → ∀ d ∈ L.deps i,
    FoundSat (L.lookup d.toSpec) (fun j => j < L.n ∧ rank j < rank i)

instance (L : ServiceLayer) (rank : Nat → Nat) : Decidable (RankedAcyclic L rank) := by
  unfold RankedAcyclic; infer_instance

/-- A dependency cycle: a nonempty set of services, closed under a successor map, where each
member declares a dependency that the lookup index resolves to its successor. -/
def HasCycle (L : ServiceLayer) (cyc : List Nat) (next : Nat → Nat) : Prop :=
  cyc ≠ [] ∧ ∀ i ∈ cyc,
    i < L.n ∧ next i ∈ cyc ∧
      ∃ d ∈ L.deps i, L.lookup d.toSpec = ServiceLookupResult.found (next i)

instance (L : ServiceLayer) (cyc : List Nat) (next : Nat → Nat) :
    Decidable (HasCycle L cyc next) := by
  unfold HasCycle; infer_instance

/-- The lookup index only resolves to services of the layer (spec section 4.1: the index is
built from the full service set). -/
def LookupClosed (L : ServiceLayer) : Prop :=
  ∀ s j, L.lookup s = ServiceLookupResult.found j → j < L.n

/-- Number of not-yet-constructed services; strictly decreases whenever a service starts
constructing. -/
def ncCard (L : ServiceLayer) (σ : St) : Nat :=
  ((Finset.range L.n).filter (fun j => (σ.svc j).state = SState.notConstructed)).card

/-- Termination measure of destruction: one unit per live service plus its nonnegative
reference count. -/
def muD (L : ServiceLayer) (σ : St) : Nat :=
  ((Finset.range L.n).filter (fun j => (σ.svc j).state ≠ SState.destroyed)).sum
    (fun j => (σ.svc j).refCount.toNat + 1)

/-- Whether a lookup result is a found result. -/
def isFoundR : ServiceLookupResult → Bool
  | .found _ => true
  | _ => false

/- Concrete scenarios used by counterexamples and witnesses. -/

/-- Dependency on provider interface P. -/
def depP : Dep := ⟨"p", "P", none⟩

/-- Packages of the sharing scenario: services S1 (index 0) and S2 (index 1) both depend on
provider P (index 2). -/
def pkgsP : List PackageRepr := [⟨"app", [⟨[depP]⟩, ⟨[depP]⟩, ⟨[]⟩], []⟩]

/-- Lookup of the sharing scenario: interface P resolves to service 2. -/
def lookupP : InterfaceSpec → ServiceLookupResult := fun s =>
  if s = ⟨"P", none⟩ then ServiceLookupResult.found 2 else ServiceLookupResult.notFound

/-- The sharing-scenario layer. -/
def L12P : ServiceLayer := ServiceLayer.ofPackages pkgsP lookupP

/-- State after starting the sharing scenario. -/
def stStart12P : St := resState (L12P.start 4 initSt)

/-- State after destroying the started sharing scenario. -/
def stDestroy12P : St := (L12P.destroy 10 stStart12P).getD initSt

/-- State after the destruction attempt on S1 only. -/
def stMid1 : St := (L12P.destroyService 10 0 stStart12P).getD initSt

/-- State after the destruction attempts on S1 and S2. -/
def stMid2 : St := (L12P.destroyService 10 1 stMid1).getD initSt

/-- State after the further top-level destruction attempt on P itself. -/
def stMid3 : St := (L12P.destroyService 10 2 stMid2).getD initSt

/-- Dependency on interface A. -/
def depA : Dep := ⟨"a", "A", none⟩

/-- Dependency on interface B. -/
def depB : Dep := ⟨"b", "B", none⟩

/-- Packages of the cycle scenario: service 0 provides A and needs B, service 1 provides B and
needs A. -/
def pkgsCyc : List PackageRepr := [⟨"cycpkg", [⟨[depB]⟩, ⟨[depA]⟩], []⟩]

/-- Lookup of the cycle scenario. -/
def lookupAB : InterfaceSpec → ServiceLookupResult := fun s =>
  if s = ⟨"A", none⟩ then ServiceLookupResult.found 0
  else if s = ⟨"B", none⟩ then ServiceLookupResult.found 1
  else ServiceLookupResult.notFound

/-- The cycle-scenario layer. -/
def Lcyc : ServiceLayer := ServiceLayer.ofPackages pkgsCyc lookupAB

/-- Successor map of the concrete two-cycle. -/
def nextW : Nat → Nat := fun i => if i = 0 then 1 else 0

/-- Rank certificate for the sharing scenario: P below its two dependents. -/
def rankW : Nat → Nat := fun i => if i = 2 then 0 else 1

/-- Dependency on an interface X nothing provides. -/
def depX : Dep := ⟨"x", "X", none⟩

/-- Packages of the unresolvable-dependency scenario: service 0 needs X, service 1 is
independent; no lookup ever succeeds. -/
def pkgsX : List PackageRepr := [⟨"xpkg", [⟨[depX]⟩, ⟨[]⟩], []⟩]

/-- The unresolvable-dependency layer. -/
def LX : ServiceLayer := ServiceLayer.ofPackages pkgsX (fun _ => ServiceLookupResult.notFound)

/-- A layer state in which the layer has already been started. -/
def stStarted : St := { initSt with layerState := LState.started }

/-- Packages of the authorization scenario: pkgA declares a consumer reference on X with
qualifier v1 and nothing else. -/
def pkgsA : List PackageRepr := [⟨"pkgA", [], [⟨"X", some "v1"⟩]⟩]

/-- A one-service layer with an empty dependency list, for destruction witnesses. -/
def LD : ServiceLayer :=
  ServiceLayer.ofPackages [⟨"dpkg", [⟨[]⟩], []⟩] (fun _ => ServiceLookupResult.notFound)

/-- Postcondition of a successful createService call on service `i` returning token `tok`. -/
def CreateOkPost (i tok : Nat) (σ σ' : St) : Prop :=
  Common σ σ' ∧ NoNewCon σ σ' ∧ ConFwd σ σ' ∧
    (σ'.svc i).state = SState.constructed ∧ (σ'.svc i).inst = some tok

/-- Specification satisfied by every construction step function (in particular by
createService at every fuel): successful calls satisfy the success postcondition, thrown
calls still satisfy the common state-evolution facts. -/
def CreateSpecAt (L : ServiceLayer) (step : Nat → St → CRes) : Prop :=
  ∀ i σ, match step i σ with
    | .ok tok σ' => CreateOkPost i tok σ σ'
    | .err _ σ' => Common σ σ'
    | .fuelOut => True

/-- No member of the given service set is constructed. -/
def NoCycleConstructed (cyc : List Nat) (σ : St) : Prop :=
  ∀ i ∈ cyc, (σ.svc i).state ≠ SState.constructed

/- Theorems. -/

@[simp]
theorem setSvc_svc (σ : St) (i j : Nat) (s : SvcState) :
    (σ.setSvc i s).svc j = if j = i then s else σ.svc j := rfl

@[simp]
theorem setSvc_layerState (σ : St) (i : Nat) (s : SvcState) :
    (σ.setSvc i s).layerState = σ.layerState := rfl

@[simp]
theorem setSvc_nextInstance (σ : St) (i : Nat) (s : SvcState) :
    (σ.setSvc i s).nextInstance = σ.nextInstance := rfl

@[simp]
theorem setSvc_log (σ : St) (i : Nat) (s : SvcState) : (σ.setSvc i s).log = σ.log := rfl

@[simp]
theorem addLog_svc (σ : St) (e : Event) (j : Nat) : (σ.addLog e).svc j = σ.svc j := rfl

@[simp]
theorem addLog_layerState (σ : St) (e : Event) : (σ.addLog e).layerState = σ.layerState := rfl

@[simp]
theorem addLog_nextInstance (σ : St) (e : Event) : (σ.addLog e).nextInstance = σ.nextInstance :=
  rfl

@[simp]
theorem addLog_log (σ : St) (e : Event) : (σ.addLog e).log = σ.log ++ [e] := rfl

/-- C1 counterexample: in the sharing scenario S1, S2 both depending on provider P, start()
succeeds and the claim "the instance passed to S1 and S2 for P is identical and P has
refCount 2" is false: the reference count of P is 3, because start() also visits P itself at
top level (ServiceLayer.ts lines 58-60) and that visit adds a reference (line 93) on top of
the one taken at creation and the one added for the second dependent. -/
theorem c1_shared_provider_refcount_cex :
    isOkS (L12P.start 4 initSt) = true ∧
    ¬((stStart12P.svc 0).references = (stStart12P.svc 1).references ∧
      (stStart12P.svc 2).refCount = 2) := by
  decide

/-- C1 amended: in the sharing scenario, after a successful start() the instance token passed
to S1 and to S2 for P is the identical token 0, which is exactly the stored instance of P,
and P's refCount equals 3: one reference per dependent plus one from the top-level visit of P
in start()'s loop over all services. -/
theorem c1_shared_provider_instance_and_refcount :
    isOkS (L12P.start 4 initSt) = true ∧
    (stStart12P.svc 0).references = [("p", 0)] ∧
    (stStart12P.svc 1).references = [("p", 0)] ∧
    (stStart12P.svc 2).inst = some 0 ∧
    (stStart12P.svc 2).refCount = 3 := by
  decide

/-- C2: in the sharing scenario, after destroy() the destructor of P ran exactly once, and
only after destruction had been attempted on both S1 and S2 (the destructor-run event of P
comes after the destruction-attempt events of S1 and of S2 in the trace).  Replaying
destroy()'s loop stepwise shows the actual destruction happens exactly at the last decrement:
after the attempt on S1 the shared P is still constructed with refCount 2 and no destructor
run, after the attempt on S2 still constructed with refCount 1, and the final top-level
attempt on P itself decrements to 0 and destroys it, running the destructor once. -/
theorem c2_shared_provider_destroyed_once_after_both :
    isOkS (L12P.start 4 initSt) = true ∧
    (L12P.destroy 10 stStart12P).isSome = true ∧
    (stDestroy12P.svc 2).destructorRuns = 1 ∧
    (stDestroy12P.log.filter (fun e => decide (e = Event.destructorRun 2))).length = 1 ∧
    idxOfEvent (Event.destroyAttempt 0) stDestroy12P.log <
      idxOfEvent (Event.destructorRun 2) stDestroy12P.log ∧
    idxOfEvent (Event.destroyAttempt 1) stDestroy12P.log <
      idxOfEvent (Event.destructorRun 2) stDestroy12P.log ∧
    (stMid1.svc 2).state = SState.constructed ∧ (stMid1.svc 2).refCount = 2 ∧
    (stMid1.svc 2).destructorRuns = 0 ∧
    (stMid2.svc 2).state = SState.constructed ∧ (stMid2.svc 2).refCount = 1 ∧
    (stMid2.svc 2).destructorRuns = 0 ∧
    (stMid3.svc 2).state = SState.destroyed ∧ (stMid3.svc 2).destructorRuns = 1 := by
  decide

/-- C7: calling start() in any layer state other than not-started fails with the
invalid-state internal error "Service layer was already started." and leaves the state
untouched, and calling getService in any layer state other than started fails with the
invalid-state internal error "Service layer is not started.". -/
theorem c7_invalid_state_errors (L : ServiceLayer) (fuel : Nat) (σ σ₂ : St)
    (pname : String) (spec : InterfaceSpec)
    (h1 : σ.layerState ≠ LState.notStarted) (h2 : σ₂.layerState ≠ LState.started) :
    L.start fuel σ = SRes.err alreadyStartedError σ ∧
    L.getService σ₂ pname spec = Except.error notStartedError := by
  constructor
  · simp [ServiceLayer.start, h1]
  · simp [ServiceLayer.getService, h2]

/-- C7 witness: a started layer rejects a second start() (so start() is not idempotent but
fails), and getService before start() fails. -/
theorem c7_invalid_state_errors_witness :
    (stStarted.layerState ≠ LState.notStarted ∧ initSt.layerState ≠ LState.started) ∧
    LD.start 3 stStarted = SRes.err alreadyStartedError stStarted ∧
    LD.getService initSt "pkgA" ⟨"X", none⟩ = Except.error notStartedError :=
  ⟨⟨by decide, by decide⟩,
    c7_invalid_state_errors LD 3 stStarted initSt "pkgA" ⟨"X", none⟩ (by decide) (by decide)⟩

theorem LogOk_nil : LogOk [] := by
  intro e he
  cases he

theorem LogOk_append {t1 t2 : List Event} (h1 : LogOk t1) (h2 : LogOk t2) :
    LogOk (t1 ++ t2) := by
  intro e he i ss hss s hs
  rcases List.mem_append.mp he with h | h
  · exact h1 e h i ss hss s hs
  · exact h2 e h i ss hss s hs

theorem Common.refl (σ : St) : Common σ σ :=
  ⟨fun _ h => ⟨h, rfl, le_refl _⟩, fun _ => Iff.rfl, fun _ h => h,
    fun _ hne hcon => absurd hcon hne, rfl, ⟨[], by simp, LogOk_nil⟩⟩

theorem Common.trans {σ σ' σ'' : St} (h1 : Common σ σ') (h2 : Common σ' σ'') :
    Common σ σ'' := by
  refine ⟨?_, ?_, ?_, ?_, ?_, ?_⟩
  · intro j hj
    obtain ⟨hs1, hi1, hr1⟩ := h1.con j hj
    obtain ⟨hs2, hi2, hr2⟩ := h2.con j hs1
    exact ⟨hs2, hi2.trans hi1, le_trans hr1 hr2⟩
  · intro j
    exact (h2.des j).trans (h1.des j)
  · intro j hj
    exact h1.ncBack j (h2.ncBack j hj)
  · intro j hne hcon
    by_cases hmid : (σ'.svc j).state = SState.constructed
    · obtain ⟨hi1, hr1⟩ := h1.newCon j hne hmid
      obtain ⟨hs2, hi2, hr2⟩ := h2.con j hmid
      refine ⟨?_, le_trans hr1 hr2⟩
      rw [hi2]
      exact hi1
    · exact h2.newCon j hmid hcon
  · exact h2.layer.trans h1.layer
  · obtain ⟨t1, he1, ho1⟩ := h1.logGrow
    obtain ⟨t2, he2, ho2⟩ := h2.logGrow
    exact ⟨t1 ++ t2, by rw [he2, he1, List.append_assoc], LogOk_append ho1 ho2⟩

theorem Common.addRef (σ : St) (i tok : Nat) (h1 : (σ.svc i).state = SState.constructed)
    (hinst : (σ.svc i).inst = some tok) :
    Common σ
      (σ.setSvc i { σ.svc i with refCount := (σ.svc i).refCount + 1, inst := some tok }) := by
  refine ⟨?_, ?_, ?_, ?_, rfl, ⟨[], by simp, LogOk_nil⟩⟩
  · intro j hj
    by_cases hji : j = i
    · subst hji
      simp [hj, hinst]
    · simp [hji, hj]
  · intro j
    by_cases hji : j = i
    · subst hji
      simp [h1]
    · simp [hji]
  · intro j hj
    by_cases hji : j = i
    · subst hji
      simp at hj
      rw [hj] at h1
      cases h1
    · simpa [hji] using hj
  · intro j hne hcon
    by_cases hji : j = i
    · subst hji
      exact absurd h1 hne
    · simp [hji] at hcon
      exact absurd hcon hne

theorem Common.beforeCreate (σ : St) (i : Nat)
    (h : (σ.svc i).state = SState.notConstructed) :
    Common σ (σ.setSvc i { σ.svc i with state := SState.constructing }) := by
  refine ⟨?_, ?_, ?_, ?_, rfl, ⟨[], by simp, LogOk_nil⟩⟩
  · intro j hj
    by_cases hji : j = i
    · subst hji
      rw [h] at hj
      cases hj
    · simp [hji, hj]
  · intro j
    by_cases hji : j = i
    · subst hji
      simp [h]
    · simp [hji]
  · intro j hj
    by_cases hji : j = i
    · subst hji
      simp at hj
    · simpa [hji] using hj
  · intro j hne hcon
    by_cases hji : j = i
    · subst hji
      simp at hcon
    · simp [hji] at hcon
      exact absurd hcon hne

theorem finishSt_svc_self (L : ServiceLayer) (i : Nat) (refs : List (String × Nat)) (σ : St) :
    (finishSt L i refs σ).svc i =
      { state := SState.constructed, refCount := 1, inst := some σ.nextInstance,
        references := refs, destructorRuns := (σ.svc i).destructorRuns } := by
  simp [finishSt]

theorem finishSt_svc_ne (L : ServiceLayer) (i j : Nat) (refs : List (String × Nat)) (σ : St)
    (h : j ≠ i) : (finishSt L i refs σ).svc j = σ.svc j := by
  simp [finishSt, h]

theorem Common.finish (L : ServiceLayer) (i : Nat) (refs : List (String × Nat)) (σ : St)
    (hcon : (σ.svc i).state = SState.constructing)
    (hdeps : ∀ d ∈ L.deps i, ∀ j, L.lookup d.toSpec = ServiceLookupResult.found j →
      (σ.svc j).state = SState.constructed) :
    Common σ (finishSt L i refs σ) := by
  refine ⟨?_, ?_, ?_, ?_, rfl, ?_⟩
  · intro j hj
    have hji : j ≠ i := by
      intro he
      rw [he, hcon] at hj
      cases hj
    rw [finishSt_svc_ne L i j refs σ hji]
    exact ⟨hj, rfl, le_refl _⟩
  · intro j
    by_cases hji : j = i
    · subst hji
      rw [finishSt_svc_self, hcon]
      simp
    · rw [finishSt_svc_ne L i j refs σ hji]
  · intro j hj
    by_cases hji : j = i
    · subst hji
      rw [finishSt_svc_self] at hj
      cases hj
    · rw [finishSt_svc_ne L i j refs σ hji] at hj
      exact hj
  · intro j hne hcj
    by_cases hji : j = i
    · subst hji
      rw [finishSt_svc_self]
      simp
    · rw [finishSt_svc_ne L i j refs σ hji] at hcj
      exact absurd hcj hne
  · refine ⟨[Event.ctorCall i (depSnapshot L i σ)], rfl, ?_⟩
    intro e he i' ss hss s hs
    rw [List.mem_singleton] at he
    subst he
    cases hss
    rcases List.mem_filterMap.mp hs with ⟨d, hd, hmap⟩
    cases hl : L.lookup d.toSpec with
    | found j =>
      rw [hl] at hmap
      cases hmap
      exact hdeps d hd j hl
    | notFound =>
      rw [hl] at hmap
      cases hmap
    | ambiguous =>
      rw [hl] at hmap
      cases hmap

theorem createDeps_spec (L : ServiceLayer) (step : Nat → St → CRes)
    (hstep : CreateSpecAt L step) :
    ∀ (ds : List Dep) (σ : St) (acc : List (String × Nat)),
      match createDeps L step ds σ acc with
      | .okD _ σ' => Common σ σ' ∧ NoNewCon σ σ' ∧ ConFwd σ σ' ∧
          ∀ d ∈ ds, ∀ j, L.lookup d.toSpec = ServiceLookupResult.found j →
            (σ'.svc j).state = SState.constructed
      | .errD _ σ' => Common σ σ'
      | .fuelOutD => True := by
  intro ds
  induction ds with
  | nil =>
    intro σ acc
    exact ⟨Common.refl σ, fun _ h => h, fun _ h => h, by simp⟩
  | cons d ds ih =>
    intro σ acc
    split
    case _ refs σ2 heq =>
      simp only [createDeps] at heq
      cases hl : L.lookup d.toSpec
      case found j =>
        simp only [hl] at heq
        have hs := hstep j σ
        cases hcs : step j σ
        case ok tok σ1 =>
          simp only [hcs] at heq
          have hs2 : CreateOkPost j tok σ σ1 := by
            rw [hcs] at hs
            exact hs
          obtain ⟨hc01, hn01, hf01, hconJ, hinstJ⟩ := hs2
          have hd := ih σ1 (acc ++ [(d.referenceName, tok)])
          rw [heq] at hd
          have hd2 : Common σ1 σ2 ∧ NoNewCon σ1 σ2 ∧ ConFwd σ1 σ2 ∧
              (∀ d' ∈ ds, ∀ j, L.lookup d'.toSpec = ServiceLookupResult.found j →
                (σ2.svc j).state = SState.constructed) := hd
          obtain ⟨hc12, hn12, hf12, hdeps⟩ := hd2
          refine ⟨hc01.trans hc12, ?_, ?_, ?_⟩
          · intro k hk
            exact hn01 k (hn12 k hk)
          · intro k hk
            exact hf12 k (hf01 k hk)
          · intro d' hd' k hk
            rcases List.mem_cons.mp hd' with h | h
            · subst h
              rw [hl] at hk
              cases hk
              exact (hc12.con j hconJ).1
            · exact hdeps d' h k hk
        case err e σ1 =>
          simp only [hcs] at heq
          exact DRes.noConfusion heq
        case fuelOut =>
          simp only [hcs] at heq
          exact DRes.noConfusion heq
      case notFound =>
        simp only [hl] at heq
        exact DRes.noConfusion heq
      case ambiguous =>
        simp only [hl] at heq
        exact DRes.noConfusion heq
    case _ e σ2 heq =>
      simp only [createDeps] at heq
      cases hl : L.lookup d.toSpec
      case found j =>
        simp only [hl] at heq
        have hs := hstep j σ
        cases hcs : step j σ
        case ok tok σ1 =>
          simp only [hcs] at heq
          have hs2 : CreateOkPost j tok σ σ1 := by
            rw [hcs] at hs
            exact hs
          have hd := ih σ1 (acc ++ [(d.referenceName, tok)])
          rw [heq] at hd
          have hd2 : Common σ1 σ2 := hd
          exact hs2.1.trans hd2
        case err e1 σ1 =>
          simp only [hcs] at heq
          cases heq
          rw [hcs] at hs
          exact hs
        case fuelOut =>
          simp only [hcs] at heq
          exact DRes.noConfusion heq
      case notFound =>
        simp only [hl] at heq
        cases heq
        exact Common.refl σ
      case ambiguous =>
        simp only [hl] at heq
        cases heq
        exact Common.refl σ
    case _ heq =>
      trivial

theorem createService_spec (L : ServiceLayer) : ∀ fuel, CreateSpecAt L (L.createService fuel) := by
  intro fuel
  induction fuel with
  | zero =>
    intro i σ
    exact trivial
  | succ fuel ih =>
    intro i σ
    show match L.createService (fuel + 1) i σ with
      | .ok tok σ' => CreateOkPost i tok σ σ'
      | .err _ σ' => Common σ σ'
      | .fuelOut => True
    split
    case _ tok σ' heq =>
      simp only [ServiceLayer.createService] at heq
      by_cases h1 : (σ.svc i).state = SState.constructed
      · rw [if_pos h1] at heq
        cases hinst : (σ.svc i).inst with
        | none =>
          simp only [hinst] at heq
          exact CRes.noConfusion heq
        | some tok0 =>
          simp only [hinst] at heq
          cases heq
          refine ⟨Common.addRef σ i _ h1 hinst, ?_, ?_, ?_, ?_⟩
          · intro k hk
            by_cases hki : k = i
            · subst hki
              simp at hk
              rw [h1] at hk
              cases hk
            · simp [hki] at hk
              exact hk
          · intro k hk
            by_cases hki : k = i
            · subst hki
              rw [h1] at hk
              cases hk
            · simp [hki]
              exact hk
          · simp [h1]
          · simp [hinst]
      · rw [if_neg h1] at heq
        by_cases h2 : (σ.svc i).state = SState.constructing
        · rw [if_pos h2] at heq
          exact CRes.noConfusion heq
        · rw [if_neg h2] at heq
          by_cases h3 : (σ.svc i).state = SState.notConstructed
          · rw [if_neg (not_not_intro h3)] at heq
            have hd := createDeps_spec L (L.createService fuel) ih (L.deps i)
              (σ.setSvc i { σ.svc i with state := SState.constructing }) []
            cases hdd : createDeps L (L.createService fuel) (L.deps i)
                (σ.setSvc i { σ.svc i with state := SState.constructing }) [] with
            | okD refs σ2 =>
              simp only [hdd] at heq
              rw [hdd] at hd
              have hd2 : Common (σ.setSvc i { σ.svc i with state := SState.constructing }) σ2 ∧
                  NoNewCon (σ.setSvc i { σ.svc i with state := SState.constructing }) σ2 ∧
                  ConFwd (σ.setSvc i { σ.svc i with state := SState.constructing }) σ2 ∧
                  (∀ d ∈ L.deps i, ∀ j, L.lookup d.toSpec = ServiceLookupResult.found j →
                    (σ2.svc j).state = SState.constructed) := hd
              obtain ⟨hc12, hn12, hf12, hdeps⟩ := hd2
              simp only [finishCreate] at heq
              cases heq
              have hcon2 : (σ2.svc i).state = SState.constructing := by
                apply hf12 i
                simp
              have hfin := Common.finish L i refs σ2 hcon2 hdeps
              refine ⟨(Common.beforeCreate σ i h3).trans (hc12.trans hfin), ?_, ?_, ?_, ?_⟩
              · intro k hk
                have hki : k ≠ i := by
                  intro he
                  subst he
                  rw [finishSt_svc_self] at hk
                  cases hk
                rw [finishSt_svc_ne L i k refs σ2 hki] at hk
                have hk1 := hn12 k hk
                simp [hki] at hk1
                exact hk1
              · intro k hk
                have hki : k ≠ i := by
                  intro he
                  subst he
                  rw [h3] at hk
                  cases hk
                rw [finishSt_svc_ne L i k refs σ2 hki]
                apply hf12 k
                simp [hki]
                exact hk
              · rw [finishSt_svc_self]
              · rw [finishSt_svc_self]
            | errD e σ2 =>
              simp only [hdd] at heq
              exact CRes.noConfusion heq
            | fuelOutD =>
              simp only [hdd] at heq
              exact CRes.noConfusion heq
          · rw [if_pos h3] at heq
            exact CRes.noConfusion heq
    case _ e σ' heq =>
      simp only [ServiceLayer.createService] at heq
      by_cases h1 : (σ.svc i).state = SState.constructed
      · rw [if_pos h1] at heq
        cases hinst : (σ.svc i).inst with
        | none =>
          simp only [hinst] at heq
          cases heq
          exact Common.refl σ
        | some tok0 =>
          simp only [hinst] at heq
          exact CRes.noConfusion heq
      · rw [if_neg h1] at heq
        by_cases h2 : (σ.svc i).state = SState.constructing
        · rw [if_pos h2] at heq
          cases heq
          exact Common.refl σ
        · rw [if_neg h2] at heq
          by_cases h3 : (σ.svc i).state = SState.notConstructed
          · rw [if_neg (not_not_intro h3)] at heq
            have hd := createDeps_spec L (L.createService fuel) ih (L.deps i)
              (σ.setSvc i { σ.svc i with state := SState.constructing }) []
            cases hdd : createDeps L (L.createService fuel) (L.deps i)
                (σ.setSvc i { σ.svc i with state := SState.constructing }) [] with
            | okD refs σ2 =>
              simp only [hdd, finishCreate] at heq
              exact CRes.noConfusion heq
            | errD e2 σ2 =>
              simp only [hdd] at heq
              rw [hdd] at hd
              have hd2 : Common (σ.setSvc i { σ.svc i with state := SState.constructing }) σ2 := hd
              cases heq
              exact (Common.beforeCreate σ i h3).trans hd2
            | fuelOutD =>
              simp only [hdd] at heq
              exact CRes.noConfusion heq
          · rw [if_pos h3] at heq
            cases heq
            exact Common.refl σ
    case _ heq =>
      trivial

theorem startAll_spec (L : ServiceLayer) (fuel : Nat) :
    ∀ (is : List Nat) (σ : St),
      match startAll L fuel is σ with
      | .ok σ' => Common σ σ' ∧ NoNewCon σ σ' ∧
          ∀ i ∈ is, (σ'.svc i).state = SState.constructed
      | .err _ σ' => Common σ σ'
      | .fuelOut => True := by
  intro is
  induction is with
  | nil =>
    intro σ
    exact ⟨Common.refl σ, fun _ h => h, by simp⟩
  | cons i is ih =>
    intro σ
    split
    case _ σ2 heq =>
      simp only [startAll] at heq
      have hs := createService_spec L fuel i σ
      cases hcs : L.createService fuel i σ with
      | ok tok σ1 =>
        simp only [hcs] at heq
        rw [hcs] at hs
        have hs2 : CreateOkPost i tok σ σ1 := hs
        have hd := ih σ1
        rw [heq] at hd
        have hd2 : Common σ1 σ2 ∧ NoNewCon σ1 σ2 ∧
            (∀ k ∈ is, (σ2.svc k).state = SState.constructed) := hd
        refine ⟨hs2.1.trans hd2.1, ?_, ?_⟩
        · intro k hk
          exact hs2.2.1 k (hd2.2.1 k hk)
        · intro k hk
          rcases List.mem_cons.mp hk with h | h
          · subst h
            exact (hd2.1.con k hs2.2.2.2.1).1
          · exact hd2.2.2 k h
      | err e σ1 =>
        simp only [hcs] at heq
        exact SRes.noConfusion heq
      | fuelOut =>
        simp only [hcs] at heq
        exact SRes.noConfusion heq
    case _ e σ2 heq =>
      simp only [startAll] at heq
      have hs := createService_spec L fuel i σ
      cases hcs : L.createService fuel i σ with
      | ok tok σ1 =>
        simp only [hcs] at heq
        rw [hcs] at hs
        have hs2 : CreateOkPost i tok σ σ1 := hs
        have hd := ih σ1
        rw [heq] at hd
        have hd2 : Common σ1 σ2 := hd
        exact hs2.1.trans hd2
      | err e1 σ1 =>
        simp only [hcs] at heq
        cases heq
        rw [hcs] at hs
        exact hs
      | fuelOut =>
        simp only [hcs] at heq
        exact SRes.noConfusion heq
    case _ heq =>
      trivial

theorem logOkB_of_LogOk {t : List Event} (h : LogOk t) : logOkB t = true := by
  rw [logOkB, List.all_eq_true]
  intro e he
  cases e with
  | ctorCall i ss =>
    rw [ctorEventOk, List.all_eq_true]
    intro s hs
    exact decide_eq_true (h _ he i ss rfl s hs)
  | destroyAttempt i => rfl
  | destructorRun i => rfl

/-- C4: in every run of start(), at every moment a service constructor is invoked, all of the
service's resolved declared dependencies are in state constructed.  This holds for successful
and for failed runs alike: every constructor-invocation event in the trace carries a snapshot
of the dependency states taken at the invocation, and all snapshots show only constructed. -/
theorem c4_dependencies_constructed_before_ctor (L : ServiceLayer) (fuel : Nat) :
    logOkB (startLog L fuel) = true := by
  rw [startLog]
  cases hr : L.start fuel initSt with
  | ok σ =>
    simp only [ServiceLayer.start] at hr
    rw [if_neg (by decide : ¬(initSt.layerState ≠ LState.notStarted))] at hr
    have hsa := startAll_spec L fuel (List.range L.n) initSt
    cases hq : startAll L fuel (List.range L.n) initSt with
    | ok σ1 =>
      rw [hq] at hsa
      simp only [hq] at hr
      cases hr
      have hc : Common initSt σ1 := hsa.1
      obtain ⟨t, hlog, hok⟩ := hc.logGrow
      show logOkB σ1.log = true
      rw [hlog]
      show logOkB (initSt.log ++ t) = true
      rw [show initSt.log = [] from rfl, List.nil_append]
      exact logOkB_of_LogOk hok
    | err e σ1 =>
      simp only [hq] at hr
      exact SRes.noConfusion hr
    | fuelOut =>
      simp only [hq] at hr
      exact SRes.noConfusion hr
  | err e σ =>
    simp only [ServiceLayer.start] at hr
    rw [if_neg (by decide : ¬(initSt.layerState ≠ LState.notStarted))] at hr
    have hsa := startAll_spec L fuel (List.range L.n) initSt
    cases hq : startAll L fuel (List.range L.n) initSt with
    | ok σ1 =>
      simp only [hq] at hr
      exact SRes.noConfusion hr
    | err e1 σ1 =>
      rw [hq] at hsa
      simp only [hq] at hr
      cases hr
      have hc : Common initSt σ := hsa
      obtain ⟨t, hlog, hok⟩ := hc.logGrow
      show logOkB σ.log = true
      rw [hlog]
      show logOkB (initSt.log ++ t) = true
      rw [show initSt.log = [] from rfl, List.nil_append]
      exact logOkB_of_LogOk hok
    | fuelOut =>
      simp only [hq] at hr
      exact SRes.noConfusion hr
  | fuelOut =>
    rfl

/-- C9: when start() is called on a layer in state not-started and raises any error partway
through construction, the layer state is still not-started in the state at the throw: the
transition to started is performed only after every service was constructed.  Services
already constructed before the failure keep their constructed state. -/
theorem c9_failed_start_keeps_layer_not_started (L : ServiceLayer) (fuel : Nat) (σ : St)
    (h : σ.layerState = LState.notStarted) :
    match L.start fuel σ with
    | .err _ σ' => σ'.layerState = LState.notStarted ∧
        ∀ j, (σ.svc j).state = SState.constructed → (σ'.svc j).state = SState.constructed
    | _ => True := by
  split
  case _ e σ' heq =>
    simp only [ServiceLayer.start] at heq
    rw [if_neg (not_not_intro h)] at heq
    have hsa := startAll_spec L fuel (List.range L.n) σ
    cases hq : startAll L fuel (List.range L.n) σ with
    | ok σ1 =>
      simp only [hq] at heq
      exact SRes.noConfusion heq
    | err e1 σ1 =>
      rw [hq] at hsa
      simp only [hq] at heq
      cases heq
      have hc : Common σ σ' := hsa
      refine ⟨hc.layer.trans h, ?_⟩
      intro j hj
      exact (hc.con j hj).1
    | fuelOut =>
      simp only [hq] at heq
      exact SRes.noConfusion heq
  case _ =>
    trivial

/-- C9 witness: the concrete two-service cycle layer; its start() fails, and the state at the
throw still has layer state not-started. -/
theorem c9_failed_start_keeps_layer_not_started_witness :
    initSt.layerState = LState.notStarted ∧
    (match Lcyc.start 3 initSt with
     | .err _ σ' => σ'.layerState = LState.notStarted ∧
         ∀ j, (initSt.svc j).state = SState.constructed →
           (σ'.svc j).state = SState.constructed
     | _ => True) ∧
    (match Lcyc.start 3 initSt with
     | SRes.err _ _ => true
     | _ => false) = true :=
  ⟨rfl, c9_failed_start_keeps_layer_not_started Lcyc 3 initSt rfl, by decide⟩

theorem mem_insert_iff (l : List String) (q q' : String) :
    (q ∈ if q' ∈ l then l else l ++ [q']) ↔ q' = q ∨ q ∈ l := by
  by_cases hqm : q' ∈ l
  · rw [if_pos hqm]
    constructor
    · intro h
      exact Or.inr h
    · rintro (h | h)
      · subst h
        exact hqm
      · exact h
  · rw [if_neg hqm]
    rw [List.mem_append, List.mem_singleton]
    constructor
    · rintro (h | h)
      · exact Or.inr h
      · exact Or.inl h.symm
    · rintro (h | h)
      · exact Or.inr h.symm
      · exact Or.inl h

theorem matchEntry_addUIReference (e : String → Option DependencyDeclarations)
    (r : UIReference) (spec : InterfaceSpec) :
    matchEntry (addUIReference e r) spec = true ↔
      (r.interfaceName = spec.interfaceName ∧ r.qualifier = spec.qualifier) ∨
        matchEntry e spec = true := by
  obtain ⟨rn, rq⟩ := r
  obtain ⟨sn, sq⟩ := spec
  by_cases hif : rn = sn
  · subst hif
    simp only [matchEntry, addUIReference, Function.update_same]
    cases rq with
    | none =>
      cases sq with
      | none =>
        cases hcur : e rn <;> simp [hcur]
      | some q =>
        cases hcur : e rn <;> simp [hcur]
    | some q' =>
      cases sq with
      | none =>
        cases hcur : e rn <;> simp [hcur]
      | some q =>
        cases hcur : e rn with
        | none => simp [hcur, mem_insert_iff, eq_comm]
        | some dd => simp [hcur, mem_insert_iff]
  · simp only [matchEntry, addUIReference]
    rw [Function.update_noteq (fun he => hif he.symm)]
    simp [hif]

theorem matchEntry_buildPackageEntry (refs : List UIReference) :
    ∀ (e : String → Option DependencyDeclarations) (spec : InterfaceSpec),
      matchEntry (refs.foldl addUIReference e) spec = true ↔
        (∃ r ∈ refs, r.interfaceName = spec.interfaceName ∧ r.qualifier = spec.qualifier) ∨
          matchEntry e spec = true := by
  induction refs with
  | nil =>
    intro e spec
    simp
  | cons r rest ih =>
    intro e spec
    rw [List.foldl_cons, ih, matchEntry_addUIReference]
    simp only [List.mem_cons]
    constructor
    · rintro (⟨r', hm, hp⟩ | (hp | hm))
      · exact Or.inl ⟨r', Or.inr hm, hp⟩
      · exact Or.inl ⟨r, Or.inl rfl, hp⟩
      · exact Or.inr hm
    · rintro (⟨r', hm, hp⟩ | hm)
      · rcases hm with h | h
        · subst h
          exact Or.inr (Or.inl hp)
        · exact Or.inl ⟨r', h, hp⟩
      · exact Or.inr (Or.inr hm)

theorem indexFold_untouched (pkgs : List PackageRepr) :
    ∀ (base : String → Option (String → Option DependencyDeclarations)) (pname : String),
      (∀ p ∈ pkgs, p.name ≠ pname) →
      (pkgs.foldl
        (fun (index : String → Option (String → Option DependencyDeclarations)) pkg =>
          Function.update index pkg.name (some (buildPackageEntry pkg.uiReferences)))
        base) pname = base pname := by
  induction pkgs with
  | nil =>
    intro base pname _
    rfl
  | cons p rest ih =>
    intro base pname h
    rw [List.foldl_cons, ih _ _ (fun q hq => h q (List.mem_cons_of_mem p hq))]
    exact Function.update_noteq (Ne.symm (h p (List.mem_cons_self p rest))) _ _

theorem indexFold_mem (pkgs : List PackageRepr) :
    ∀ (base : String → Option (String → Option DependencyDeclarations)),
      (pkgs.map PackageRepr.name).Nodup → ∀ p ∈ pkgs,
      (pkgs.foldl
        (fun (index : String → Option (String → Option DependencyDeclarations)) pkg =>
          Function.update index pkg.name (some (buildPackageEntry pkg.uiReferences)))
        base) p.name = some (buildPackageEntry p.uiReferences) := by
  induction pkgs with
  | nil =>
    intro base _ p hp
    cases hp
  | cons q rest ih =>
    intro base hnd p hp
    rw [List.foldl_cons]
    rcases List.mem_cons.mp hp with h | h
    · subst h
      have hq : p.name ∉ rest.map PackageRepr.name := by
        rw [List.map_cons, List.nodup_cons] at hnd
        exact hnd.1
      have hnotin : ∀ r ∈ rest, r.name ≠ p.name := by
        intro r hr he
        exact hq (he ▸ List.mem_map_of_mem PackageRepr.name hr)
      rw [indexFold_untouched rest _ _ hnotin]
      exact Function.update_same _ _ _
    · rw [List.map_cons, List.nodup_cons] at hnd
      exact ih _ hnd.2 p h

theorem isDeclaredDependency_ofPackages (pkgs : List PackageRepr)
    (lookup : InterfaceSpec → ServiceLookupResult) (pname : String) (spec : InterfaceSpec)
    (hnd : (pkgs.map PackageRepr.name).Nodup) :
    (ServiceLayer.ofPackages pkgs lookup).isDeclaredDependency pname spec = true ↔
      ∃ p ∈ pkgs, p.name = pname ∧ ∃ r ∈ p.uiReferences,
        r.interfaceName = spec.interfaceName ∧ r.qualifier = spec.qualifier := by
  by_cases hmem : ∃ p ∈ pkgs, p.name = pname
  · obtain ⟨p, hp, hpn⟩ := hmem
    subst hpn
    have hidx : buildDependencyIndex pkgs p.name = some (buildPackageEntry p.uiReferences) :=
      indexFold_mem pkgs _ hnd p hp
    have hred : (ServiceLayer.ofPackages pkgs lookup).isDeclaredDependency p.name spec =
        matchEntry (buildPackageEntry p.uiReferences) spec := by
      simp only [ServiceLayer.isDeclaredDependency, ServiceLayer.ofPackages, hidx]
    rw [hred, buildPackageEntry, matchEntry_buildPackageEntry]
    have hbase : matchEntry (fun _ => none) spec = false := rfl
    rw [hbase]
    simp only [Bool.false_eq_true, or_false]
    constructor
    · intro h
      exact ⟨p, hp, rfl, h⟩
    · rintro ⟨p', hp', hp'n, hr⟩
      have : p' = p := List.inj_on_of_nodup_map hnd hp' hp hp'n
      subst this
      exact hr
  · have hn : ∀ p ∈ pkgs, p.name ≠ pname := fun p hp he => hmem ⟨p, hp, he⟩
    have hidx : buildDependencyIndex pkgs pname = none := indexFold_untouched pkgs _ pname hn
    have hred : (ServiceLayer.ofPackages pkgs lookup).isDeclaredDependency pname spec = false := by
      simp only [ServiceLayer.isDeclaredDependency, ServiceLayer.ofPackages, hidx]
    rw [hred]
    constructor
    · intro h
      cases h
    · rintro ⟨p, hp, hpn, _⟩
      exact absurd ⟨p, hp, hpn⟩ hmem

theorem liftLookup_ne_undeclared (r : ServiceLookupResult) :
    liftLookup r ≠ DynamicLookupResult.undeclared := by
  cases r <;> simp [liftLookup]

/-- C6: on a started layer, getService never raises for any of the four outcomes; it returns
undeclared exactly when the requesting package has no consumer reference whose interface name
and optional qualifier both match the requested specification exactly (so no fallback between
qualified and unqualified lookups is possible); and whenever such an exact declaration
exists, it returns the lookup result for the specification verbatim.  Package names are
assumed distinct, as the data model requires. -/
theorem c6_get_service_undeclared_iff (pkgs : List PackageRepr)
    (lookup : InterfaceSpec → ServiceLookupResult) (σ : St) (pname : String)
    (spec : InterfaceSpec) (hnd : (pkgs.map PackageRepr.name).Nodup)
    (hst : σ.layerState = LState.started) :
    ((ServiceLayer.ofPackages pkgs lookup).getService σ pname spec =
        Except.ok DynamicLookupResult.undeclared ↔
      ¬∃ p ∈ pkgs, p.name = pname ∧ ∃ r ∈ p.uiReferences,
        r.interfaceName = spec.interfaceName ∧ r.qualifier = spec.qualifier) ∧
    ((∃ p ∈ pkgs, p.name = pname ∧ ∃ r ∈ p.uiReferences,
        r.interfaceName = spec.interfaceName ∧ r.qualifier = spec.qualifier) →
      (ServiceLayer.ofPackages pkgs lookup).getService σ pname spec =
        Except.ok (liftLookup (lookup spec))) ∧
    (∃ res, (ServiceLayer.ofPackages pkgs lookup).getService σ pname spec = Except.ok res) := by
  have hlk : (ServiceLayer.ofPackages pkgs lookup).lookup = lookup := rfl
  have hdecl := isDeclaredDependency_ofPackages pkgs lookup pname spec hnd
  by_cases hd : (ServiceLayer.ofPackages pkgs lookup).isDeclaredDependency pname spec = true
  · have hres : (ServiceLayer.ofPackages pkgs lookup).getService σ pname spec =
        Except.ok (liftLookup (lookup spec)) := by
      rw [ServiceLayer.getService, if_neg (not_not_intro hst), if_neg (by simp [hd]), hlk]
    refine ⟨?_, fun _ => hres, ⟨_, hres⟩⟩
    rw [hres]
    constructor
    · intro h
      rw [Except.ok.injEq] at h
      exact absurd h (liftLookup_ne_undeclared (lookup spec))
    · intro h
      exact absurd (hdecl.mp hd) h
  · have hd' : (ServiceLayer.ofPackages pkgs lookup).isDeclaredDependency pname spec = false :=
      by simpa using hd
    have hres : (ServiceLayer.ofPackages pkgs lookup).getService σ pname spec =
        Except.ok DynamicLookupResult.undeclared := by
      rw [ServiceLayer.getService, if_neg (not_not_intro hst), if_pos (by rw [hd'])]
    refine ⟨?_, ?_, ⟨_, hres⟩⟩
    · rw [hres]
      simp only [true_iff]
      intro hex
      exact hd (hdecl.mpr hex)
    · intro hex
      exact absurd (hdecl.mpr hex) hd

/-- C6 witness: pkgA declares X with qualifier v1; looking X@v1 up is authorized and returns
the lookup result verbatim, while X@v2 and unqualified X are undeclared. -/
theorem c6_get_service_undeclared_iff_witness :
    ((pkgsA.map PackageRepr.name).Nodup ∧ stStarted.layerState = LState.started) ∧
    ((ServiceLayer.ofPackages pkgsA (fun _ => ServiceLookupResult.ambiguous)).getService
        stStarted "pkgA" ⟨"X", some "v2"⟩ = Except.ok DynamicLookupResult.undeclared ↔
      ¬∃ p ∈ pkgsA, p.name = "pkgA" ∧ ∃ r ∈ p.uiReferences,
        r.interfaceName = "X" ∧ r.qualifier = some "v2") ∧
    ((∃ p ∈ pkgsA, p.name = "pkgA" ∧ ∃ r ∈ p.uiReferences,
        r.interfaceName = "X" ∧ r.qualifier = some "v2") →
      (ServiceLayer.ofPackages pkgsA (fun _ => ServiceLookupResult.ambiguous)).getService
        stStarted "pkgA" ⟨"X", some "v2"⟩ =
          Except.ok (liftLookup (ServiceLookupResult.ambiguous))) ∧
    (∃ res, (ServiceLayer.ofPackages pkgsA (fun _ => ServiceLookupResult.ambiguous)).getService
        stStarted "pkgA" ⟨"X", some "v2"⟩ = Except.ok res) :=
  ⟨⟨by decide, rfl⟩,
    c6_get_service_undeclared_iff pkgsA (fun _ => ServiceLookupResult.ambiguous) stStarted
      "pkgA" ⟨"X", some "v2"⟩ (by decide) rfl⟩

theorem LayerInv.preserve {σ σ' : St} (hc : Common σ σ') (hi : LayerInv σ) : LayerInv σ' := by
  refine ⟨fun j hd => hi.1 j ((hc.des j).mp hd), ?_⟩
  intro j hj
  by_cases h0 : (σ.svc j).state = SState.constructed
  · obtain ⟨hs, hinst, hrc⟩ := hc.con j h0
    obtain ⟨hi1, hi2⟩ := hi.2 j h0
    refine ⟨?_, le_trans hi2 hrc⟩
    rw [hinst]
    exact hi1
  · exact hc.newCon j h0 hj

theorem createDeps_total (L : ServiceLayer) (rank : Nat → Nat) (i fuel : Nat)
    (step : Nat → St → CRes) (hstep_spec : CreateSpecAt L step)
    (hstep_total : ∀ j σ, j < L.n → rank j < fuel → LayerInv σ →
      (∀ k, (σ.svc k).state = SState.constructing → rank j < rank k) →
      ∃ tok σ', step j σ = CRes.ok tok σ') :
    ∀ (ds : List Dep) (σ : St) (acc : List (String × Nat)),
      (∀ d ∈ ds, FoundSat (L.lookup d.toSpec) (fun j => j < L.n ∧ rank j < rank i)) →
      rank i ≤ fuel → LayerInv σ →
      (∀ k, (σ.svc k).state = SState.constructing → rank i ≤ rank k) →
      ∃ refs σ', createDeps L step ds σ acc = DRes.okD refs σ' := by
  intro ds
  induction ds with
  | nil =>
    intro σ acc _ _ _ _
    exact ⟨acc, σ, rfl⟩
  | cons d ds ihd =>
    intro σ acc hds hfi hinv hcons
    have hd0 := hds d (List.mem_cons_self d ds)
    cases hl : L.lookup d.toSpec with
    | found j =>
      rw [hl] at hd0
      obtain ⟨hjn, hji⟩ := (show j < L.n ∧ rank j < rank i from hd0)
      obtain ⟨tok, σ1, hcall⟩ := hstep_total j σ hjn (lt_of_lt_of_le hji hfi) hinv
        (fun k hk => lt_of_lt_of_le hji (hcons k hk))
      have hspec := hstep_spec j σ
      rw [hcall] at hspec
      have hpost : CreateOkPost j tok σ σ1 := hspec
      obtain ⟨refs, σ2, hrec⟩ := ihd σ1 (acc ++ [(d.referenceName, tok)])
        (fun d' hd' => hds d' (List.mem_cons_of_mem _ hd'))
        hfi (LayerInv.preserve hpost.1 hinv)
        (fun k hk => hcons k (hpost.2.1 k hk))
      refine ⟨refs, σ2, ?_⟩
      simp only [createDeps, hl, hcall]
      exact hrec
    | notFound =>
      rw [hl] at hd0
      exact (hd0 : False).elim
    | ambiguous =>
      rw [hl] at hd0
      exact (hd0 : False).elim

theorem createService_total (L : ServiceLayer) (rank : Nat → Nat)
    (hres : RankedAcyclic L rank) :
    ∀ fuel i σ, i < L.n → rank i < fuel → LayerInv σ →
      (∀ k, (σ.svc k).state = SState.constructing → rank i < rank k) →
      ∃ tok σ', L.createService fuel i σ = CRes.ok tok σ' := by
  intro fuel
  induction fuel with
  | zero =>
    intro i σ _ hf
    exact absurd hf (Nat.not_lt_zero _)
  | succ fuel ih =>
    intro i σ hin hf hinv hcon
    cases hstate : (σ.svc i).state with
    | constructed =>
      obtain ⟨hio, hrc⟩ := hinv.2 i hstate
      obtain ⟨tok, htok⟩ := Option.isSome_iff_exists.mp hio
      refine ⟨tok, σ.setSvc i { σ.svc i with refCount := (σ.svc i).refCount + 1 }, ?_⟩
      simp only [ServiceLayer.createService]
      rw [if_pos hstate, htok]
    | constructing =>
      exact absurd (hcon i hstate) (lt_irrefl _)
    | destroyed =>
      exact absurd hstate (hinv.1 i)
    | notConstructed =>
      have hinv1 : LayerInv (σ.setSvc i { σ.svc i with state := SState.constructing }) := by
        constructor
        · intro j
          by_cases hji : j = i
          · subst hji
            simp
          · simp [hji]
            exact hinv.1 j
        · intro j hj
          by_cases hji : j = i
          · subst hji
            simp at hj
          · simp [hji] at hj ⊢
            exact hinv.2 j hj
      have hcons1 : ∀ k,
          ((σ.setSvc i { σ.svc i with state := SState.constructing }).svc k).state =
            SState.constructing → rank i ≤ rank k := by
        intro k hk
        by_cases hki : k = i
        · subst hki
          exact le_refl _
        · simp [hki] at hk
          exact le_of_lt (hcon k hk)
      obtain ⟨refs, σ2, hdd⟩ := createDeps_total L rank i fuel (L.createService fuel)
        (createService_spec L fuel) (fun j σ0 hj hfj hij hcj => ih j σ0 hj hfj hij hcj)
        (L.deps i) (σ.setSvc i { σ.svc i with state := SState.constructing }) []
        (hres i hin) (Nat.lt_succ_iff.mp hf) hinv1 hcons1
      refine ⟨σ2.nextInstance, finishSt L i refs σ2, ?_⟩
      simp only [ServiceLayer.createService]
      rw [if_neg (by rw [hstate]; decide), if_neg (by rw [hstate]; decide),
        if_neg (not_not_intro hstate), hdd]
      rfl

theorem startAll_total (L : ServiceLayer) (rank : Nat → Nat) (hres : RankedAcyclic L rank)
    (hrank : ∀ i, i < L.n → rank i < L.n) (fuel : Nat) (hfuel : L.n ≤ fuel) :
    ∀ (is : List Nat) (σ : St), (∀ i ∈ is, i < L.n) → LayerInv σ →
      (∀ k, (σ.svc k).state ≠ SState.constructing) →
      ∃ σ', startAll L fuel is σ = SRes.ok σ' ∧ LayerInv σ' ∧
        (∀ k, (σ'.svc k).state ≠ SState.constructing) ∧
        (∀ i ∈ is, (σ'.svc i).state = SState.constructed) ∧ Common σ σ' := by
  intro is
  induction is with
  | nil =>
    intro σ _ hinv hnc
    exact ⟨σ, rfl, hinv, hnc, by simp, Common.refl σ⟩
  | cons i is ihs =>
    intro σ hin hinv hnc
    have hi : i < L.n := hin i (List.mem_cons_self i is)
    obtain ⟨tok, σ1, hcall⟩ := createService_total L rank hres fuel i σ hi
      (lt_of_lt_of_le (hrank i hi) hfuel) hinv (fun k hk => absurd hk (hnc k))
    have hspec := createService_spec L fuel i σ
    rw [hcall] at hspec
    have hpost : CreateOkPost i tok σ σ1 := hspec
    have hnc1 : ∀ k, (σ1.svc k).state ≠ SState.constructing :=
      fun k hk => hnc k (hpost.2.1 k hk)
    obtain ⟨σ2, hrec, hinv2, hnc2, hcons2, hc12⟩ := ihs σ1
      (fun j hj => hin j (List.mem_cons_of_mem _ hj))
      (LayerInv.preserve hpost.1 hinv) hnc1
    refine ⟨σ2, ?_, hinv2, hnc2, ?_, hpost.1.trans hc12⟩
    · simp only [startAll, hcall]
      exact hrec
    · intro k hk
      rcases List.mem_cons.mp hk with h | h
      · subst h
        exact (hc12.con k hpost.2.2.2.1).1
      · exact hcons2 k h

/-- C3: for every layer whose dependency graph is acyclic (witnessed by a rank function,
bounded by the number of services, along which every resolved dependency strictly descends —
such a rank exists for every finite acyclic graph) and all of whose declared dependencies
resolve, start() succeeds with any recursion budget of at least the number of services, the
layer ends in state started, and every service ends in state constructed holding at least one
reference. -/
theorem c3_acyclic_start_succeeds (L : ServiceLayer) (rank : Nat → Nat) (fuel : Nat)
    (hres : RankedAcyclic L rank) (hrank : ∀ i, i < L.n → rank i < L.n)
    (hfuel : L.n ≤ fuel) :
    ∃ σ', L.start fuel initSt = SRes.ok σ' ∧ σ'.layerState = LState.started ∧
      ∀ i, i < L.n → (σ'.svc i).state = SState.constructed ∧ 1 ≤ (σ'.svc i).refCount := by
  have hinv0 : LayerInv initSt :=
    ⟨fun j h => SState.noConfusion h, fun j h => SState.noConfusion h⟩
  have hnc0 : ∀ k, (initSt.svc k).state ≠ SState.constructing :=
    fun k h => SState.noConfusion h
  obtain ⟨σ2, hrec, hinv2, _, hcons2, _⟩ := startAll_total L rank hres hrank fuel hfuel
    (List.range L.n) initSt (fun i h => List.mem_range.mp h) hinv0 hnc0
  refine ⟨{ σ2 with layerState := LState.started }, ?_, rfl, ?_⟩
  · simp only [ServiceLayer.start]
    rw [if_neg (by decide : ¬(initSt.layerState ≠ LState.notStarted)), hrec]
  · intro i hi
    have hci := hcons2 i (List.mem_range.mpr hi)
    exact ⟨hci, (hinv2.2 i hci).2⟩

/-- C3 witness: the three-service sharing layer with its rank certificate; start() with
budget 4 succeeds and all three services are constructed. -/
theorem c3_acyclic_start_succeeds_witness :
    (RankedAcyclic L12P rankW ∧ (∀ i, i < L12P.n → rankW i < L12P.n) ∧ L12P.n ≤ 4) ∧
    (∃ σ', L12P.start 4 initSt = SRes.ok σ' ∧ σ'.layerState = LState.started ∧
      ∀ i, i < L12P.n → (σ'.svc i).state = SState.constructed ∧ 1 ≤ (σ'.svc i).refCount) :=
  ⟨⟨by decide, by decide, by decide⟩,
    c3_acyclic_start_succeeds L12P rankW 4 (by decide) (by decide) (by decide)⟩

theorem ncCard_le_of_common (L : ServiceLayer) {σ σ' : St} (hc : Common σ σ') :
    ncCard L σ' ≤ ncCard L σ := by
  apply Finset.card_le_card
  intro j hj
  rw [Finset.mem_filter] at hj ⊢
  exact ⟨hj.1, hc.ncBack j hj.2⟩

theorem ncCard_beforeCreate (L : ServiceLayer) (σ : St) (i : Nat) (hin : i < L.n)
    (hst : (σ.svc i).state = SState.notConstructed) :
    ncCard L (σ.setSvc i { σ.svc i with state := SState.constructing }) + 1 = ncCard L σ := by
  have hmem : i ∈ (Finset.range L.n).filter
      (fun j => (σ.svc j).state = SState.notConstructed) :=
    Finset.mem_filter.mpr ⟨Finset.mem_range.mpr hin, hst⟩
  have hfil : (Finset.range L.n).filter
      (fun j => ((σ.setSvc i { σ.svc i with state := SState.constructing }).svc j).state =
        SState.notConstructed) =
      ((Finset.range L.n).filter
        (fun j => (σ.svc j).state = SState.notConstructed)).erase i := by
    ext j
    rw [Finset.mem_erase, Finset.mem_filter, Finset.mem_filter]
    by_cases hji : j = i
    · subst hji
      simp
    · simp [hji]
  unfold ncCard
  rw [hfil, Finset.card_erase_of_mem hmem]
  have hpos : 0 < ((Finset.range L.n).filter
      (fun j => (σ.svc j).state = SState.notConstructed)).card :=
    Finset.card_pos.mpr ⟨i, hmem⟩
  omega

theorem ncCard_finishSt (L : ServiceLayer) (i : Nat) (refs : List (String × Nat)) (σ : St)
    (hst : (σ.svc i).state = SState.constructing) :
    ncCard L (finishSt L i refs σ) = ncCard L σ := by
  unfold ncCard
  congr 1
  ext j
  rw [Finset.mem_filter, Finset.mem_filter]
  by_cases hji : j = i
  · subst hji
    rw [finishSt_svc_self, hst]
    simp
  · rw [finishSt_svc_ne L i j refs σ hji]

theorem ncCard_init (L : ServiceLayer) : ncCard L initSt = L.n := by
  unfold ncCard
  rw [Finset.filter_true_of_mem
    (fun j _ => (show (initSt.svc j).state = SState.notConstructed from rfl))]
  exact Finset.card_range L.n

theorem createDeps_ncm (L : ServiceLayer) (cyc : List Nat) (step : Nat → St → CRes)
    (hstep : ∀ k σ, NoCycleConstructed cyc σ →
      match step k σ with
      | .ok _ σ' => NoCycleConstructed cyc σ'
      | .err _ σ' => NoCycleConstructed cyc σ'
      | .fuelOut => True) :
    ∀ (ds : List Dep) (σ : St) (acc : List (String × Nat)), NoCycleConstructed cyc σ →
      match createDeps L step ds σ acc with
      | .okD _ σ' => NoCycleConstructed cyc σ'
      | .errD _ σ' => NoCycleConstructed cyc σ'
      | .fuelOutD => True := by
  intro ds
  induction ds with
  | nil =>
    intro σ acc hncm
    exact hncm
  | cons d ds ih =>
    intro σ acc hncm
    split
    case _ refs σ2 heq =>
      simp only [createDeps] at heq
      cases hl : L.lookup d.toSpec
      case found j =>
        simp only [hl] at heq
        have hs := hstep j σ hncm
        cases hcs : step j σ
        case ok tok σ1 =>
          simp only [hcs] at heq
          rw [hcs] at hs
          have hncm1 : NoCycleConstructed cyc σ1 := hs
          have hd := ih σ1 (acc ++ [(d.referenceName, tok)]) hncm1
          rw [heq] at hd
          exact hd
        case err e σ1 =>
          simp only [hcs] at heq
          exact DRes.noConfusion heq
        case fuelOut =>
          simp only [hcs] at heq
          exact DRes.noConfusion heq
      case notFound =>
        simp only [hl] at heq
        exact DRes.noConfusion heq
      case ambiguous =>
        simp only [hl] at heq
        exact DRes.noConfusion heq
    case _ e σ2 heq =>
      simp only [createDeps] at heq
      cases hl : L.lookup d.toSpec
      case found j =>
        simp only [hl] at heq
        have hs := hstep j σ hncm
        cases hcs : step j σ
        case ok tok σ1 =>
          simp only [hcs] at heq
          rw [hcs] at hs
          have hncm1 : NoCycleConstructed cyc σ1 := hs
          have hd := ih σ1 (acc ++ [(d.referenceName, tok)]) hncm1
          rw [heq] at hd
          exact hd
        case err e1 σ1 =>
          simp only [hcs] at heq
          cases heq
          rw [hcs] at hs
          exact hs
        case fuelOut =>
          simp only [hcs] at heq
          exact DRes.noConfusion heq
      case notFound =>
        simp only [hl] at heq
        cases heq
        exact hncm
      case ambiguous =>
        simp only [hl] at heq
        cases heq
        exact hncm
    case _ heq =>
      trivial

theorem createService_ncm (L : ServiceLayer) (cyc : List Nat) (next : Nat → Nat)
    (hcyc : ∀ i ∈ cyc, i < L.n ∧ next i ∈ cyc ∧
      ∃ d ∈ L.deps i, L.lookup d.toSpec = ServiceLookupResult.found (next i)) :
    ∀ fuel k σ, NoCycleConstructed cyc σ →
      match L.createService fuel k σ with
      | .ok _ σ' => NoCycleConstructed cyc σ'
      | .err _ σ' => NoCycleConstructed cyc σ'
      | .fuelOut => True := by
  intro fuel
  induction fuel with
  | zero =>
    intro k σ _
    exact trivial
  | succ fuel ih =>
    intro k σ hncm
    split
    case _ tok σ' heq =>
      simp only [ServiceLayer.createService] at heq
      by_cases h1 : (σ.svc k).state = SState.constructed
      · rw [if_pos h1] at heq
        cases hinst : (σ.svc k).inst with
        | none =>
          simp only [hinst] at heq
          exact CRes.noConfusion heq
        | some tok0 =>
          simp only [hinst] at heq
          cases heq
          intro i hi hsc
          by_cases hik : i = k
          · subst hik
            exact hncm i hi h1
          · simp [hik] at hsc
            exact hncm i hi hsc
      · rw [if_neg h1] at heq
        by_cases h2 : (σ.svc k).state = SState.constructing
        · rw [if_pos h2] at heq
          exact CRes.noConfusion heq
        · rw [if_neg h2] at heq
          by_cases h3 : (σ.svc k).state = SState.notConstructed
          · rw [if_neg (not_not_intro h3)] at heq
            have hncm1 : NoCycleConstructed cyc
                (σ.setSvc k { σ.svc k with state := SState.constructing }) := by
              intro i hi hsc
              by_cases hik : i = k
              · subst hik
                simp at hsc
              · simp [hik] at hsc
                exact hncm i hi hsc
            have hfold := createDeps_ncm L cyc (L.createService fuel) ih (L.deps k)
              (σ.setSvc k { σ.svc k with state := SState.constructing }) [] hncm1
            cases hdd : createDeps L (L.createService fuel) (L.deps k)
                (σ.setSvc k { σ.svc k with state := SState.constructing }) [] with
            | okD refs σ2 =>
              simp only [hdd, finishCreate] at heq
              rw [hdd] at hfold
              have hncm2 : NoCycleConstructed cyc σ2 := hfold
              cases heq
              have hknot : k ∉ cyc := by
                intro hk
                obtain ⟨hkn, hnext, d, hd, hlk⟩ := hcyc k hk
                have hspec := createDeps_spec L (L.createService fuel)
                  (createService_spec L fuel) (L.deps k)
                  (σ.setSvc k { σ.svc k with state := SState.constructing }) []
                rw [hdd] at hspec
                have hdeps : ∀ d' ∈ L.deps k, ∀ j,
                    L.lookup d'.toSpec = ServiceLookupResult.found j →
                      (σ2.svc j).state = SState.constructed := hspec.2.2.2
                exact hncm2 (next k) hnext (hdeps d hd (next k) hlk)
              intro i hi hsc
              by_cases hik : i = k
              · subst hik
                exact hknot hi
              · rw [finishSt_svc_ne L k i refs σ2 hik] at hsc
                exact hncm2 i hi hsc
            | errD e σ2 =>
              simp only [hdd] at heq
              exact CRes.noConfusion heq
            | fuelOutD =>
              simp only [hdd] at heq
              exact CRes.noConfusion heq
          · rw [if_pos h3] at heq
            exact CRes.noConfusion heq
    case _ e σ' heq =>
      simp only [ServiceLayer.createService] at heq
      by_cases h1 : (σ.svc k).state = SState.constructed
      · rw [if_pos h1] at heq
        cases hinst : (σ.svc k).inst with
        | none =>
          simp only [hinst] at heq
          cases heq
          exact hncm
        | some tok0 =>
          simp only [hinst] at heq
          exact CRes.noConfusion heq
      · rw [if_neg h1] at heq
        by_cases h2 : (σ.svc k).state = SState.constructing
        · rw [if_pos h2] at heq
          cases heq
          exact hncm
        · rw [if_neg h2] at heq
          by_cases h3 : (σ.svc k).state = SState.notConstructed
          · rw [if_neg (not_not_intro h3)] at heq
            have hncm1 : NoCycleConstructed cyc
                (σ.setSvc k { σ.svc k with state := SState.constructing }) := by
              intro i hi hsc
              by_cases hik : i = k
              · subst hik
                simp at hsc
              · simp [hik] at hsc
                exact hncm i hi hsc
            have hfold := createDeps_ncm L cyc (L.createService fuel) ih (L.deps k)
              (σ.setSvc k { σ.svc k with state := SState.constructing }) [] hncm1
            cases hdd : createDeps L (L.createService fuel) (L.deps k)
                (σ.setSvc k { σ.svc k with state := SState.constructing }) [] with
            | okD refs σ2 =>
              simp only [hdd, finishCreate] at heq
              exact CRes.noConfusion heq
            | errD e2 σ2 =>
              simp only [hdd] at heq
              rw [hdd] at hfold
              cases heq
              exact hfold
            | fuelOutD =>
              simp only [hdd] at heq
              exact CRes.noConfusion heq
          · rw [if_pos h3] at heq
            cases heq
            exact hncm
    case _ heq =>
      trivial

theorem createDeps_progress (L : ServiceLayer) (fuel : Nat) (step : Nat → St → CRes)
    (hstep_prog : ∀ k σ, k < L.n → ncCard L σ < fuel → LayerInv σ →
      match step k σ with
      | .ok _ σ' => ncCard L σ' ≤ ncCard L σ ∧ LayerInv σ'
      | .err e _ => e = cycleError
      | .fuelOut => False) :
    ∀ (ds : List Dep) (σ : St) (acc : List (String × Nat)),
      (∀ d ∈ ds, FoundSat (L.lookup d.toSpec) (fun j => j < L.n)) →
      ncCard L σ < fuel → LayerInv σ →
      match createDeps L step ds σ acc with
      | .okD _ σ' => ncCard L σ' ≤ ncCard L σ ∧ LayerInv σ'
      | .errD e _ => e = cycleError
      | .fuelOutD => False := by
  intro ds
  induction ds with
  | nil =>
    intro σ acc _ _ hinv
    exact ⟨le_refl _, hinv⟩
  | cons d ds ih =>
    intro σ acc hds hcard hinv
    have hd0 := hds d (List.mem_cons_self d ds)
    split
    case _ refs σ2 heq =>
      simp only [createDeps] at heq
      cases hl : L.lookup d.toSpec
      case found j =>
        simp only [hl] at heq
        rw [hl] at hd0
        have hjn : j < L.n := hd0
        have hp := hstep_prog j σ hjn hcard hinv
        cases hcs : step j σ
        case ok tok σ1 =>
          simp only [hcs] at heq
          rw [hcs] at hp
          obtain ⟨hle1, hinv1⟩ := (hp : ncCard L σ1 ≤ ncCard L σ ∧ LayerInv σ1)
          have hrec := ih σ1 (acc ++ [(d.referenceName, tok)])
            (fun d' hd' => hds d' (List.mem_cons_of_mem _ hd'))
            (lt_of_le_of_lt hle1 hcard) hinv1
          rw [heq] at hrec
          obtain ⟨hle2, hinv2⟩ :=
            (hrec : ncCard L σ2 ≤ ncCard L σ1 ∧ LayerInv σ2)
          exact ⟨le_trans hle2 hle1, hinv2⟩
        case err e σ1 =>
          simp only [hcs] at heq
          exact DRes.noConfusion heq
        case fuelOut =>
          simp only [hcs] at heq
          exact DRes.noConfusion heq
      case notFound =>
        rw [hl] at hd0
        exact (hd0 : False).elim
      case ambiguous =>
        rw [hl] at hd0
        exact (hd0 : False).elim
    case _ e σ2 heq =>
      simp only [createDeps] at heq
      cases hl : L.lookup d.toSpec
      case found j =>
        simp only [hl] at heq
        rw [hl] at hd0
        have hjn : j < L.n := hd0
        have hp := hstep_prog j σ hjn hcard hinv
        cases hcs : step j σ
        case ok tok σ1 =>
          simp only [hcs] at heq
          rw [hcs] at hp
          obtain ⟨hle1, hinv1⟩ := (hp : ncCard L σ1 ≤ ncCard L σ ∧ LayerInv σ1)
          have hrec := ih σ1 (acc ++ [(d.referenceName, tok)])
            (fun d' hd' => hds d' (List.mem_cons_of_mem _ hd'))
            (lt_of_le_of_lt hle1 hcard) hinv1
          rw [heq] at hrec
          exact hrec
        case err e1 σ1 =>
          simp only [hcs] at heq
          cases heq
          rw [hcs] at hp
          exact hp
        case fuelOut =>
          simp only [hcs] at heq
          exact DRes.noConfusion heq
      case notFound =>
        rw [hl] at hd0
        exact (hd0 : False).elim
      case ambiguous =>
        rw [hl] at hd0
        exact (hd0 : False).elim
    case _ heq =>
      simp only [createDeps] at heq
      cases hl : L.lookup d.toSpec
      case found j =>
        simp only [hl] at heq
        rw [hl] at hd0
        have hjn : j < L.n := hd0
        have hp := hstep_prog j σ hjn hcard hinv
        cases hcs : step j σ
        case ok tok σ1 =>
          simp only [hcs] at heq
          rw [hcs] at hp
          obtain ⟨hle1, hinv1⟩ := (hp : ncCard L σ1 ≤ ncCard L σ ∧ LayerInv σ1)
          have hrec := ih σ1 (acc ++ [(d.referenceName, tok)])
            (fun d' hd' => hds d' (List.mem_cons_of_mem _ hd'))
            (lt_of_le_of_lt hle1 hcard) hinv1
          rw [heq] at hrec
          exact hrec
        case err e1 σ1 =>
          simp only [hcs] at heq
          exact DRes.noConfusion heq
        case fuelOut =>
          simp only [hcs] at heq
          rw [hcs] at hp
          exact hp
      case notFound =>
        rw [hl] at hd0
        exact (hd0 : False).elim
      case ambiguous =>
        rw [hl] at hd0
        exact (hd0 : False).elim

theorem createService_progress (L : ServiceLayer) (hres : ResolvableAll L) :
    ∀ fuel k σ, k < L.n → ncCard L σ < fuel → LayerInv σ →
      match L.createService fuel k σ with
      | .ok _ σ' => ncCard L σ' ≤ ncCard L σ ∧ LayerInv σ'
      | .err e _ => e = cycleError
      | .fuelOut => False := by
  intro fuel
  induction fuel with
  | zero =>
    intro k σ _ hcard
    exact absurd hcard (Nat.not_lt_zero _)
  | succ fuel ih =>
    intro k σ hkn hcard hinv
    split
    case _ tok σ' heq =>
      have hspec := createService_spec L (fuel + 1) k σ
      rw [heq] at hspec
      have hpost : CreateOkPost k tok σ σ' := hspec
      exact ⟨ncCard_le_of_common L hpost.1, LayerInv.preserve hpost.1 hinv⟩
    case _ e σ' heq =>
      simp only [ServiceLayer.createService] at heq
      cases hstate : (σ.svc k).state with
      | constructed =>
        rw [if_pos hstate] at heq
        cases hinst : (σ.svc k).inst with
        | none =>
          have hio := (hinv.2 k hstate).1
          rw [hinst] at hio
          cases hio
        | some tok0 =>
          simp only [hinst] at heq
          exact CRes.noConfusion heq
      | constructing =>
        rw [if_neg (by rw [hstate]; decide), if_pos hstate] at heq
        cases heq
        rfl
      | destroyed =>
        exact absurd hstate (hinv.1 k)
      | notConstructed =>
        rw [if_neg (by rw [hstate]; decide), if_neg (by rw [hstate]; decide),
          if_neg (not_not_intro hstate)] at heq
        have hc1 := ncCard_beforeCreate L σ k hkn hstate
        have hinv1 : LayerInv (σ.setSvc k { σ.svc k with state := SState.constructing }) := by
          constructor
          · intro j
            by_cases hjk : j = k
            · subst hjk
              simp
            · simp [hjk]
              exact hinv.1 j
          · intro j hj
            by_cases hjk : j = k
            · subst hjk
              simp at hj
            · simp [hjk] at hj ⊢
              exact hinv.2 j hj
        have hfold := createDeps_progress L fuel (L.createService fuel) ih (L.deps k)
          (σ.setSvc k { σ.svc k with state := SState.constructing }) []
          (hres k hkn) (by omega) hinv1
        cases hdd : createDeps L (L.createService fuel) (L.deps k)
            (σ.setSvc k { σ.svc k with state := SState.constructing }) [] with
        | okD refs σ2 =>
          simp only [hdd, finishCreate] at heq
          exact CRes.noConfusion heq
        | errD e2 σ2 =>
          simp only [hdd] at heq
          rw [hdd] at hfold
          cases heq
          exact hfold
        | fuelOutD =>
          simp only [hdd] at heq
          exact CRes.noConfusion heq
    case _ heq =>
      simp only [ServiceLayer.createService] at heq
      cases hstate : (σ.svc k).state with
      | constructed =>
        rw [if_pos hstate] at heq
        cases hinst : (σ.svc k).inst with
        | none =>
          have hio := (hinv.2 k hstate).1
          rw [hinst] at hio
          cases hio
        | some tok0 =>
          simp only [hinst] at heq
          exact CRes.noConfusion heq
      | constructing =>
        rw [if_neg (by rw [hstate]; decide), if_pos hstate] at heq
        exact CRes.noConfusion heq
      | destroyed =>
        exact absurd hstate (hinv.1 k)
      | notConstructed =>
        rw [if_neg (by rw [hstate]; decide), if_neg (by rw [hstate]; decide),
          if_neg (not_not_intro hstate)] at heq
        have hc1 := ncCard_beforeCreate L σ k hkn hstate
        have hinv1 : LayerInv (σ.setSvc k { σ.svc k with state := SState.constructing }) := by
          constructor
          · intro j
            by_cases hjk : j = k
            · subst hjk
              simp
            · simp [hjk]
              exact hinv.1 j
          · intro j hj
            by_cases hjk : j = k
            · subst hjk
              simp at hj
            · simp [hjk] at hj ⊢
              exact hinv.2 j hj
        have hfold := createDeps_progress L fuel (L.createService fuel) ih (L.deps k)
          (σ.setSvc k { σ.svc k with state := SState.constructing }) []
          (hres k hkn) (by omega) hinv1
        cases hdd : createDeps L (L.createService fuel) (L.deps k)
            (σ.setSvc k { σ.svc k with state := SState.constructing }) [] with
        | okD refs σ2 =>
          simp only [hdd, finishCreate] at heq
          exact CRes.noConfusion heq
        | errD e2 σ2 =>
          simp only [hdd] at heq
          exact CRes.noConfusion heq
        | fuelOutD =>
          rw [hdd] at hfold
          exact hfold

theorem startAll_cycle (L : ServiceLayer) (cyc : List Nat) (next : Nat → Nat)
    (hres : ResolvableAll L)
    (hcyc : ∀ i ∈ cyc, i < L.n ∧ next i ∈ cyc ∧
      ∃ d ∈ L.deps i, L.lookup d.toSpec = ServiceLookupResult.found (next i)) (fuel : Nat) :
    ∀ (is : List Nat) (σ : St), (∀ i ∈ is, i < L.n) → ncCard L σ < fuel → LayerInv σ →
      NoCycleConstructed cyc σ →
      match startAll L fuel is σ with
      | .ok σ' => NoCycleConstructed cyc σ' ∧
          ∀ i ∈ is, (σ'.svc i).state = SState.constructed
      | .err e σ' => e = cycleError ∧ NoCycleConstructed cyc σ'
      | .fuelOut => False := by
  intro is
  induction is with
  | nil =>
    intro σ _ _ _ hncm
    exact ⟨hncm, by simp⟩
  | cons i is ih =>
    intro σ hin hcard hinv hncm
    have hi : i < L.n := hin i (List.mem_cons_self i is)
    have hprog := createService_progress L hres fuel i σ hi hcard hinv
    have hncl := createService_ncm L cyc next hcyc fuel i σ hncm
    split
    case _ σ2 heq =>
      simp only [startAll] at heq
      cases hcs : L.createService fuel i σ with
      | ok tok σ1 =>
        simp only [hcs] at heq
        rw [hcs] at hprog hncl
        obtain ⟨hle1, hinv1⟩ := (hprog : ncCard L σ1 ≤ ncCard L σ ∧ LayerInv σ1)
        have hncm1 : NoCycleConstructed cyc σ1 := hncl
        have hspec := createService_spec L fuel i σ
        rw [hcs] at hspec
        have hpost : CreateOkPost i tok σ σ1 := hspec
        have hrec := ih σ1 (fun j hj => hin j (List.mem_cons_of_mem _ hj))
          (lt_of_le_of_lt hle1 hcard) hinv1 hncm1
        rw [heq] at hrec
        obtain ⟨hncm2, hcons2⟩ := (hrec : NoCycleConstructed cyc σ2 ∧
          ∀ k ∈ is, (σ2.svc k).state = SState.constructed)
        have hsa := startAll_spec L fuel is σ1
        rw [heq] at hsa
        have hc12 : Common σ1 σ2 := hsa.1
        refine ⟨hncm2, ?_⟩
        intro k hk
        rcases List.mem_cons.mp hk with h | h
        · subst h
          exact (hc12.con k hpost.2.2.2.1).1
        · exact hcons2 k h
      | err e1 σ1 =>
        simp only [hcs] at heq
        exact SRes.noConfusion heq
      | fuelOut =>
        simp only [hcs] at heq
        exact SRes.noConfusion heq
    case _ e σ2 heq =>
      simp only [startAll] at heq
      cases hcs : L.createService fuel i σ with
      | ok tok σ1 =>
        simp only [hcs] at heq
        rw [hcs] at hprog hncl
        obtain ⟨hle1, hinv1⟩ := (hprog : ncCard L σ1 ≤ ncCard L σ ∧ LayerInv σ1)
        have hncm1 : NoCycleConstructed cyc σ1 := hncl
        have hrec := ih σ1 (fun j hj => hin j (List.mem_cons_of_mem _ hj))
          (lt_of_le_of_lt hle1 hcard) hinv1 hncm1
        rw [heq] at hrec
        exact hrec
      | err e1 σ1 =>
        simp only [hcs] at heq
        cases heq
        rw [hcs] at hprog hncl
        exact ⟨hprog, hncl⟩
      | fuelOut =>
        simp only [hcs] at heq
        exact SRes.noConfusion heq
    case _ heq =>
      simp only [startAll] at heq
      cases hcs : L.createService fuel i σ with
      | ok tok σ1 =>
        simp only [hcs] at heq
        rw [hcs] at hprog hncl
        obtain ⟨hle1, hinv1⟩ := (hprog : ncCard L σ1 ≤ ncCard L σ ∧ LayerInv σ1)
        have hncm1 : NoCycleConstructed cyc σ1 := hncl
        have hrec := ih σ1 (fun j hj => hin j (List.mem_cons_of_mem _ hj))
          (lt_of_le_of_lt hle1 hcard) hinv1 hncm1
        rw [heq] at hrec
        exact hrec
      | err e1 σ1 =>
        simp only [hcs] at heq
        exact SRes.noConfusion heq
      | fuelOut =>
        rw [hcs] at hprog
        exact hprog

/-- C5: for every layer all of whose declared dependencies resolve (as the layer constructor
validates) and that contains a dependency cycle — a nonempty set of services closed under a
successor map where each member declares a dependency resolving to its successor — start()
fails with the cycle error "Cycle during service construction.", and in the state carried by
the throw no service on the cycle is constructed.  Since a constructed service stays
constructed for the rest of construction, no cycle member was ever constructed during the
run. -/
theorem c5_cycle_start_fails_with_cycle_error (L : ServiceLayer) (cyc : List Nat)
    (next : Nat → Nat) (hres : ResolvableAll L) (hcyc : HasCycle L cyc next) :
    match L.start (L.n + 1) initSt with
    | .err e σ' => e = cycleError ∧ ∀ i ∈ cyc, (σ'.svc i).state ≠ SState.constructed
    | _ => False := by
  obtain ⟨hne, hmem⟩ := hcyc
  have hncm0 : NoCycleConstructed cyc initSt := fun i _ h => SState.noConfusion h
  have hinv0 : LayerInv initSt :=
    ⟨fun j h => SState.noConfusion h, fun j h => SState.noConfusion h⟩
  have hcard0 : ncCard L initSt < L.n + 1 := by
    rw [ncCard_init]
    omega
  have hall := startAll_cycle L cyc next hres hmem (L.n + 1) (List.range L.n) initSt
    (fun i h => List.mem_range.mp h) hcard0 hinv0 hncm0
  have hok_absurd : ∀ σ1, startAll L (L.n + 1) (List.range L.n) initSt = SRes.ok σ1 → False := by
    intro σ1 hq
    rw [hq] at hall
    obtain ⟨hncm1, hcons1⟩ := (hall : NoCycleConstructed cyc σ1 ∧
      ∀ i ∈ List.range L.n, (σ1.svc i).state = SState.constructed)
    cases cyc with
    | nil => exact hne rfl
    | cons c0 rest =>
      have hc0 : c0 ∈ c0 :: rest := List.mem_cons_self c0 rest
      exact hncm1 c0 hc0 (hcons1 c0 (List.mem_range.mpr (hmem c0 hc0).1))
  cases hq : startAll L (L.n + 1) (List.range L.n) initSt with
  | ok σ1 =>
    exact (hok_absurd σ1 hq).elim
  | err e1 σ1 =>
    rw [hq] at hall
    obtain ⟨hcerr, hncm1⟩ :=
      (hall : e1 = cycleError ∧ NoCycleConstructed cyc σ1)
    have hstart : L.start (L.n + 1) initSt = SRes.err e1 σ1 := by
      simp only [ServiceLayer.start]
      rw [if_neg (by decide : ¬(initSt.layerState ≠ LState.notStarted)), hq]
    rw [hstart]
    exact ⟨hcerr, hncm1⟩
  | fuelOut =>
    rw [hq] at hall
    exact (hall : False).elim

/-- C5 witness: the concrete layer with services 0 and 1 depending on each other; start()
fails with the cycle error and neither service is constructed. -/
theorem c5_cycle_start_fails_with_cycle_error_witness :
    (ResolvableAll Lcyc ∧ HasCycle Lcyc [0, 1] nextW) ∧
    (match Lcyc.start (Lcyc.n + 1) initSt with
     | .err e σ' => e = cycleError ∧ ∀ i ∈ [0, 1], (σ'.svc i).state ≠ SState.constructed
     | _ => False) :=
  ⟨⟨by decide, by decide⟩,
    c5_cycle_start_fails_with_cycle_error Lcyc [0, 1] nextW (by decide) (by decide)⟩

theorem destroyDeps_skip (L : ServiceLayer) (step : Nat → St → Option St) :
    ∀ (ds : List Dep) (σ : St), (∀ d ∈ ds, isFoundR (L.lookup d.toSpec) = false) →
      destroyDeps L step ds σ = some σ := by
  intro ds
  induction ds with
  | nil =>
    intro σ _
    rfl
  | cons d ds ih =>
    intro σ h
    have hd0 := h d (List.mem_cons_self d ds)
    cases hl : L.lookup d.toSpec with
    | found j =>
      rw [hl] at hd0
      exact Bool.noConfusion hd0
    | notFound =>
      simp only [destroyDeps, hl]
      exact ih σ (fun d' hd' => h d' (List.mem_cons_of_mem _ hd'))
    | ambiguous =>
      simp only [destroyDeps, hl]
      exact ih σ (fun d' hd' => h d' (List.mem_cons_of_mem _ hd'))

/-- C10: when every declared dependency of a service fails to resolve to a found result,
recursive destruction of that service still succeeds — the unresolved dependencies are
silently skipped, no error is possible (the destructor path has no error outcome at all) and
no other service is touched — whereas recursive construction of the same service raises the
internal mustGet error for the first declared dependency, with the state showing the service
stuck in constructing. -/
theorem c10_destroy_skips_unresolved_deps (L : ServiceLayer) (fuel i : Nat) (σ : St)
    (hunres : ∀ d ∈ L.deps i, isFoundR (L.lookup d.toSpec) = false) :
    (∃ σ', L.destroyService (fuel + 1) i σ = some σ' ∧ ∀ j, j ≠ i → σ'.svc j = σ.svc j) ∧
    (∀ d ds, L.deps i = d :: ds → (σ.svc i).state = SState.notConstructed →
      L.createService (fuel + 1) i σ =
        CRes.err (mustGetError d (L.lookup d.toSpec))
          (σ.setSvc i { σ.svc i with state := SState.constructing }) ∧
      (mustGetError d (L.lookup d.toSpec)).id = ErrorId.INTERNAL) := by
  constructor
  · by_cases hd : (σ.svc i).state = SState.destroyed
    · refine ⟨σ.addLog (Event.destroyAttempt i), ?_, fun j _ => rfl⟩
      simp only [ServiceLayer.destroyService]
      rw [if_pos hd]
    · refine ⟨destroyStep i (σ.addLog (Event.destroyAttempt i)), ?_, ?_⟩
      · simp only [ServiceLayer.destroyService]
        rw [if_neg hd]
        exact destroyDeps_skip L (L.destroyService fuel) (L.deps i) _ hunres
      · intro j hj
        unfold destroyStep
        split <;> simp [hj]
  · intro d ds hdeps hst
    refine ⟨?_, rfl⟩
    have hd0 : isFoundR (L.lookup d.toSpec) = false := by
      apply hunres
      rw [hdeps]
      exact List.mem_cons_self d ds
    simp only [ServiceLayer.createService]
    rw [if_neg (by rw [hst]; decide), if_neg (by rw [hst]; decide),
      if_neg (not_not_intro hst), hdeps]
    cases hl : L.lookup d.toSpec with
    | found j =>
      rw [hl] at hd0
      exact Bool.noConfusion hd0
    | notFound =>
      simp only [createDeps, hl]
    | ambiguous =>
      simp only [createDeps, hl]

/-- C10 witness: the layer whose service 0 declares a dependency on an interface no lookup
resolves; destroying it succeeds touching only service 0, constructing it raises the internal
mustGet error. -/
theorem c10_destroy_skips_unresolved_deps_witness :
    (∀ d ∈ LX.deps 0, isFoundR (LX.lookup d.toSpec) = false) ∧
    ((∃ σ', LX.destroyService 6 0 initSt = some σ' ∧ ∀ j, j ≠ 0 → σ'.svc j = initSt.svc j) ∧
     (∀ d ds, LX.deps 0 = d :: ds → (initSt.svc 0).state = SState.notConstructed →
       LX.createService 6 0 initSt =
         CRes.err (mustGetError d (LX.lookup d.toSpec))
           (initSt.setSvc 0 { initSt.svc 0 with state := SState.constructing }) ∧
       (mustGetError d (LX.lookup d.toSpec)).id = ErrorId.INTERNAL)) :=
  ⟨by decide, c10_destroy_skips_unresolved_deps LX 5 0 initSt (by decide)⟩

theorem muD_addLog (L : ServiceLayer) (σ : St) (e : Event) : muD L (σ.addLog e) = muD L σ :=
  rfl

theorem muD_split (L : ServiceLayer) (σ : St) (i : Nat) (hin : i < L.n) :
    muD L σ =
      (if (σ.svc i).state ≠ SState.destroyed then (σ.svc i).refCount.toNat + 1 else 0) +
        (((Finset.range L.n).erase i).filter
          (fun j => (σ.svc j).state ≠ SState.destroyed)).sum
          (fun j => (σ.svc j).refCount.toNat + 1) := by
  unfold muD
  nth_rewrite 1 [← Finset.insert_erase (Finset.mem_range.mpr hin)]
  rw [Finset.filter_insert]
  by_cases h : (σ.svc i).state ≠ SState.destroyed
  · rw [if_pos h, if_pos h, Finset.sum_insert]
    intro hmem
    exact Finset.not_mem_erase i (Finset.range L.n) (Finset.mem_of_mem_filter i hmem)
  · rw [if_neg h, if_neg h, Nat.zero_add]

theorem muD_offdiag_congr (L : ServiceLayer) (σ σ' : St) (i : Nat)
    (h : ∀ j, j ≠ i → σ'.svc j = σ.svc j) :
    (((Finset.range L.n).erase i).filter
      (fun j => (σ'.svc j).state ≠ SState.destroyed)).sum
      (fun j => (σ'.svc j).refCount.toNat + 1) =
    (((Finset.range L.n).erase i).filter
      (fun j => (σ.svc j).state ≠ SState.destroyed)).sum
      (fun j => (σ.svc j).refCount.toNat + 1) := by
  rw [Finset.filter_congr (fun j hj => by rw [h j (Finset.ne_of_mem_erase hj)])]
  apply Finset.sum_congr rfl
  intro j hj
  rw [h j (Finset.ne_of_mem_erase (Finset.mem_of_mem_filter j hj))]

theorem muD_destroyStep (L : ServiceLayer) (σ : St) (i : Nat) (hin : i < L.n)
    (hnd : (σ.svc i).state ≠ SState.destroyed) :
    muD L (destroyStep i σ) < muD L σ := by
  have hoff : ∀ j, j ≠ i → (destroyStep i σ).svc j = σ.svc j := by
    intro j hj
    unfold destroyStep
    split <;> simp [hj]
  have hσ := muD_split L σ i hin
  have hσ' := muD_split L (destroyStep i σ) i hin
  rw [muD_offdiag_congr L σ (destroyStep i σ) i hoff] at hσ'
  rw [if_pos hnd] at hσ
  by_cases hif : (σ.svc i).refCount - 1 ≤ 0
  · have hsvc : ((destroyStep i σ).svc i).state = SState.destroyed := by
      unfold destroyStep
      rw [if_pos hif]
      simp [runDestructor]
    rw [if_neg (not_not_intro hsvc)] at hσ'
    omega
  · have hsvc : (destroyStep i σ).svc i =
        { σ.svc i with refCount := (σ.svc i).refCount - 1 } := by
      unfold destroyStep
      rw [if_neg hif]
      simp
    rw [hsvc] at hσ'
    rw [if_pos (by simpa using hnd)] at hσ'
    have hrc : (2 : Int) ≤ (σ.svc i).refCount := by omega
    have htn : ((σ.svc i).refCount - 1).toNat + 1 = (σ.svc i).refCount.toNat := by
      omega
    simp only at hσ'
    omega

theorem destroyDeps_total (L : ServiceLayer) (hlc : LookupClosed L) (fuel : Nat)
    (step : Nat → St → Option St)
    (hstep : ∀ j σ, j < L.n → muD L σ < fuel →
      ∃ σ', step j σ = some σ' ∧ muD L σ' ≤ muD L σ) :
    ∀ (ds : List Dep) (σ : St), muD L σ < fuel →
      ∃ σ', destroyDeps L step ds σ = some σ' ∧ muD L σ' ≤ muD L σ := by
  intro ds
  induction ds with
  | nil =>
    intro σ _
    exact ⟨σ, rfl, le_refl _⟩
  | cons d ds ih =>
    intro σ hm
    cases hl : L.lookup d.toSpec with
    | found j =>
      obtain ⟨σ1, hcall, hle1⟩ := hstep j σ (hlc d.toSpec j hl) hm
      obtain ⟨σ2, hrec, hle2⟩ := ih σ1 (lt_of_le_of_lt hle1 hm)
      refine ⟨σ2, ?_, le_trans hle2 hle1⟩
      simp only [destroyDeps, hl, hcall]
      exact hrec
    | notFound =>
      obtain ⟨σ2, hrec, hle⟩ := ih σ hm
      refine ⟨σ2, ?_, hle⟩
      simp only [destroyDeps, hl]
      exact hrec
    | ambiguous =>
      obtain ⟨σ2, hrec, hle⟩ := ih σ hm
      refine ⟨σ2, ?_, hle⟩
      simp only [destroyDeps, hl]
      exact hrec

theorem destroyService_total (L : ServiceLayer) (hlc : LookupClosed L) :
    ∀ fuel i σ, i < L.n → muD L σ < fuel →
      ∃ σ', L.destroyService fuel i σ = some σ' ∧ muD L σ' ≤ muD L σ := by
  intro fuel
  induction fuel with
  | zero =>
    intro i σ _ hm
    exact absurd hm (Nat.not_lt_zero _)
  | succ fuel ih =>
    intro i σ hin hm
    by_cases hd : (σ.svc i).state = SState.destroyed
    · refine ⟨σ.addLog (Event.destroyAttempt i), ?_, le_of_eq (muD_addLog L σ _)⟩
      simp only [ServiceLayer.destroyService]
      rw [if_pos hd]
    · have hlt : muD L (destroyStep i (σ.addLog (Event.destroyAttempt i))) < muD L σ := by
        rw [show muD L σ = muD L (σ.addLog (Event.destroyAttempt i)) from rfl]
        exact muD_destroyStep L (σ.addLog (Event.destroyAttempt i)) i hin hd
      obtain ⟨σ2, hrec, hle⟩ := destroyDeps_total L hlc fuel (L.destroyService fuel)
        (fun j σ0 hj hm0 => ih j σ0 hj hm0) (L.deps i)
        (destroyStep i (σ.addLog (Event.destroyAttempt i))) (by omega)
      refine ⟨σ2, ?_, le_trans hle (le_of_lt hlt)⟩
      simp only [ServiceLayer.destroyService]
      rw [if_neg hd]
      exact hrec

theorem destroyAll_total (L : ServiceLayer) (hlc : LookupClosed L) (fuel : Nat) :
    ∀ (is : List Nat) (σ : St), (∀ i ∈ is, i < L.n) → muD L σ < fuel →
      ∃ σ', destroyAll L fuel is σ = some σ' ∧ muD L σ' ≤ muD L σ := by
  intro is
  induction is with
  | nil =>
    intro σ _ _
    exact ⟨σ, rfl, le_refl _⟩
  | cons i is ih =>
    intro σ hin hm
    obtain ⟨σ1, hcall, hle1⟩ := destroyService_total L hlc fuel i σ
      (hin i (List.mem_cons_self i is)) hm
    obtain ⟨σ2, hrec, hle2⟩ := ih σ1 (fun j hj => hin j (List.mem_cons_of_mem _ hj))
      (lt_of_le_of_lt hle1 hm)
    refine ⟨σ2, ?_, le_trans hle2 hle1⟩
    simp only [destroyAll, hcall]
    exact hrec

/-- C8: destroy() always succeeds: invoked in any layer state whatsoever (not-started,
started or destroyed, with arbitrary service states), it has no error outcome at all — its
result type admits none — it tears down the constructed services, and the final layer state
is destroyed.  The recursion budget needed is bounded by the destruction measure of the
state (one unit per live service plus its reference count), so a sufficient budget always
exists; the lookup index is assumed to resolve only to services of the layer, as the spec
requires of the index built over the full service set. -/
theorem c8_destroy_always_succeeds (L : ServiceLayer) (σ : St) (fuel : Nat)
    (hlc : LookupClosed L) (hfuel : muD L σ < fuel) :
    ∃ σ', L.destroy fuel σ = some σ' ∧ σ'.layerState = LState.destroyed := by
  obtain ⟨σ1, hq, _⟩ := destroyAll_total L hlc fuel (List.range L.n) σ
    (fun i h => List.mem_range.mp h) hfuel
  refine ⟨{ σ1 with layerState := LState.destroyed }, ?_, rfl⟩
  simp only [ServiceLayer.destroy]
  rw [hq]

/-- C8 witness: a one-service layer destroyed out of the started state with budget 2. -/
theorem c8_destroy_always_succeeds_witness :
    (LookupClosed LD ∧ muD LD stStarted < 2) ∧
    (∃ σ', LD.destroy 2 stStarted = some σ' ∧ σ'.layerState = LState.destroyed) :=
  ⟨⟨fun s j h => ServiceLookupResult.noConfusion h, by decide⟩,
    c8_destroy_always_succeeds LD stStarted 2
      (fun s j h => ServiceLookupResult.noConfusion h) (by decide)⟩

end SL
